import Mathlib

/-!
Shallow embedding of the audit_pretty log pretty-printer, covering the
tokenizer (`parse_message`), the dispatcher/filter (`should_process`),
the per-type significant-field extractors and renderers, and the
deduplication/aggregation engine of the main loop.

Python `dict`s are modelled as insertion-ordered association lists with
unique keys; Python exceptions (KeyError/TypeError) are modelled with
`Except`/`Option`; machine strings are Lean `String`s restricted to the
ASCII behaviour of the relevant Python predicates (`str.isdigit`,
`re` character classes), which is the character set audit lines use.
-/

set_option linter.unusedVariables false

namespace AuditPretty

/-- Scalar field value of an audit record: in this pipeline Python values are
either `int` or `str` (no other types are ever stored in a record). -/
inductive Value where
  | int : Int → Value
  | str : String → Value
deriving DecidableEq

abbrev PyError := String

/-- A Python `dict` with string keys, in insertion order; keys are unique by
construction of every operation below. -/
abbrev Record := List (String × Value)

/-- `r[k]` / `r.get(k)`: first (and by the uniqueness invariant, only) binding. -/
def rlookup : Record → String → Option Value
  | [], _ => none
  | p :: ps, k => if p.1 = k then some p.2 else rlookup ps k

/-- `k in r`. -/
def rhasKey (r : Record) (k : String) : Bool := r.any (fun p => p.1 == k)

/-- `r.get(k, d)`. -/
def rget (r : Record) (k : String) (d : Value) : Value :=
  match rlookup r k with
  | some v => v
  | none => d

/-- Removal of a key (no-op when absent); order of the remaining pairs kept. -/
def rerase (r : Record) (k : String) : Record := r.filter (fun p => !(p.1 == k))

/-- `del r[k]`: raises `KeyError` when the key is absent. -/
def delE (r : Record) (k : String) : Except PyError Record :=
  if rhasKey r k then .ok (rerase r k) else .error ("KeyError: " ++ k)

/-! ## Character classes of the regexes in `parse_message`
(ASCII reading of the Python classes). -/

/-- `[a-zA-Z\-\_]` — key characters of the tokenizer regex. -/
def keyChar (c : Char) : Bool := c.isLower || c.isUpper || c == '-' || c == '_'

/-- `[0-9_A-Z]` — the type-tag class of the shape regex. -/
def tagChar (c : Char) : Bool := c.isDigit || c.isUpper || c == '_'

/-- Greedy span of a character class, returning (matched prefix, rest). -/
def spanP (p : Char → Bool) : List Char → List Char × List Char
  | [] => ([], [])
  | c :: cs =>
    if p c then
      let r := spanP p cs
      (c :: r.1, r.2)
    else ([], c :: cs)

/-- Literal-prefix matcher: consume `pre` from the front or fail. -/
def stripPre : List Char → List Char → Option (List Char)
  | [], l => some l
  | _ :: _, [] => none
  | p :: ps, c :: cs => if c == p then stripPre ps cs else none

def hasPrefixL : List Char → List Char → Bool
  | [], _ => true
  | _ :: _, [] => false
  | a :: as, b :: bs => a == b && hasPrefixL as bs

/-- `pat in l` — Python substring containment. -/
def hasInfixL (pat : List Char) : List Char → Bool
  | [] => hasPrefixL pat []
  | c :: cs => hasPrefixL pat (c :: cs) || hasInfixL pat cs

/-- `line.strip()` (ASCII whitespace model of the Python default strip set). -/
def pyStrip (l : List Char) : List Char :=
  ((l.dropWhile Char.isWhitespace).reverse.dropWhile Char.isWhitespace).reverse

/-! ## The shape regex
`(type=[0-9_A-Z]+) (?:msg=)?audit\((\d+)\.\d+:\d+\): (.+)` (a `re.fullmatch`).
The optional `msg=` group is committed deterministically: when the literal
`msg=` is present it is consumed — backtracking cannot change the outcome
because the following literal `audit(` cannot also start with `m`. -/

/-- The part of the shape after the optional `msg=`:
`audit\((\d+)\.\d+:\d+\): (.+)` — returns (seconds digits, body). -/
def shapeRest (l3 : List Char) : Option (List Char × List Char) :=
  match stripPre "audit(".data l3 with
  | none => none
  | some l4 =>
    if (spanP Char.isDigit l4).1.isEmpty then none
    else
      match stripPre ['.'] (spanP Char.isDigit l4).2 with
      | none => none
      | some l5 =>
        if (spanP Char.isDigit l5).1.isEmpty then none
        else
          match stripPre [':'] (spanP Char.isDigit l5).2 with
          | none => none
          | some l6 =>
            if (spanP Char.isDigit l6).1.isEmpty then none
            else
              match stripPre "): ".data (spanP Char.isDigit l6).2 with
              | none => none
              | some body =>
                if body.isEmpty then none
                else if body.any (fun c => c == '\n') then none
                else some ((spanP Char.isDigit l4).1, body)

def matchShape (l : List Char) : Option (List Char × List Char × List Char) :=
  match stripPre "type=".data l with
  | none => none
  | some l1 =>
    if (spanP tagChar l1).1.isEmpty then none
    else
      match stripPre [' '] (spanP tagChar l1).2 with
      | none => none
      | some l2 =>
        match (match stripPre "msg=".data l2 with
               | some lx => shapeRest lx
               | none => shapeRest l2) with
        | none => none
        | some sb => some ((spanP tagChar l1).1, sb.1, sb.2)

/-- `re.sub(r'^\[\d+\.\d+\] audit: ', '', trimmed)`: match the anchored dmesg
prefix, or fail. -/
def dmesgMatch (l : List Char) : Option (List Char) :=
  match stripPre ['['] l with
  | none => none
  | some l1 =>
    let dR := spanP Char.isDigit l1
    if dR.1.isEmpty then none
    else
      match stripPre ['.'] dR.2 with
      | none => none
      | some l2 =>
        let d2 := spanP Char.isDigit l2
        if d2.1.isEmpty then none
        else stripPre "] audit: ".data d2.2

/-- The dmesg-prefix strip is attempted only when the line starts with `[`;
a failed anchored `re.sub` leaves the line unchanged. -/
def afterDmesg (l : List Char) : List Char :=
  match l with
  | '[' :: _ =>
    match dmesgMatch l with
    | some rest => rest
    | none => l
  | _ => l

/-! ## The token regex `([a-zA-Z\-\_]+)=(?:"(.+?)"|([^ ]+))` scanned with
`re.finditer`. -/

/-- Lazy quoted-content scan after an opening `"`: the closing quote is the
first `"` after at least one content character; `.` cannot cross a newline.
The accumulator holds the content read so far, reversed. -/
def quotedScanAux : List Char → List Char → Option (List Char × List Char)
  | _, [] => none
  | acc, c :: cs =>
    if c == '"' then
      if acc.isEmpty then quotedScanAux ['"'] cs
      else some (acc.reverse, cs)
    else if c == '\n' then none
    else quotedScanAux (c :: acc) cs

/-- `[^ ]+`: greedy run of non-space characters, nonempty. -/
def unquotedVal (l : List Char) : Option (List Char × List Char) :=
  let r := spanP (fun c => !(c == ' ')) l
  if r.1.isEmpty then none else some r

/-- The value alternation: the quoted branch is tried first (it can only start
at a literal `"`), and on failure the unquoted branch is tried at the same
position — exactly the regex backtracking order. -/
def matchValue (l : List Char) : Option (List Char × List Char) :=
  match l with
  | c :: rest =>
    if c == '"' then
      match quotedScanAux [] rest with
      | some r => some r
      | none => unquotedVal l
    else unquotedVal l
  | [] => unquotedVal []

/-- One attempt of the token regex at the current position. -/
def tryKV (l : List Char) : Option (String × String × List Char) :=
  if (spanP keyChar l).1.isEmpty then none
  else
    match (spanP keyChar l).2 with
    | c :: r2 =>
      if c == '=' then
        match matchValue r2 with
        | some (v, rest) => some (String.mk (spanP keyChar l).1, String.mk v, rest)
        | none => none
      else none
    | [] => none

/-- `re.finditer` scan: try a match at each position, left to right, resuming
after each match. Fuel-driven so that the definition is structural; the fuel
is always instantiated with the length of the list (see `scanPairs`). -/
def scanKV : Nat → List Char → List (String × String)
  | 0, _ => []
  | _ + 1, [] => []
  | fuel + 1, c :: cs =>
    match tryKV (c :: cs) with
    | some (k, v, rest) => (k, v) :: scanKV fuel rest
    | none => scanKV fuel cs

def scanPairs (l : List Char) : List (String × String) := scanKV l.length l

/-! ## Building the dict (last-write-wins, insertion order preserved) -/

def lookupS : List (String × String) → String → Option String
  | [], _ => none
  | p :: ps, k => if p.1 = k then some p.2 else lookupS ps k

/-- `result[k] = v` on a Python dict: overwrite in place when the key exists,
append otherwise. -/
def insertPy (r : List (String × String)) (k v : String) : List (String × String) :=
  if r.any (fun p => p.1 == k) then
    r.map (fun p => if p.1 == k then (p.1, v) else p)
  else r ++ [(k, v)]

def buildDict (ps : List (String × String)) : List (String × String) :=
  ps.foldl (fun r p => insertPy r p.1 p.2) []

/-! ## Numeric post-processing of values -/

/-- `v.isdigit()` (ASCII model of the Python predicate). -/
def pyIsDigit (v : String) : Bool := !v.data.isEmpty && v.data.all Char.isDigit

def decNat (l : List Char) : Nat := l.foldl (fun a c => a * 10 + (c.toNat - 48)) 0

def hexDigitB (c : Char) : Bool :=
  c.isDigit || (('a' ≤ c) && (c ≤ 'f')) || (('A' ≤ c) && (c ≤ 'F'))

def hexVal (c : Char) : Nat :=
  if c.isDigit then c.toNat - 48
  else if 'a' ≤ c then c.toNat - 87
  else c.toNat - 55

/-- Hex-digit run with the single-underscore grouping Python's `int(v, 16)`
accepts (an underscore may follow the `0x` prefix or sit between digits,
never doubled and never trailing). -/
def scanHex : Nat → List Char → Option Nat
  | acc, [] => some acc
  | acc, '_' :: c :: rest =>
    if hexDigitB c then scanHex (acc * 16 + hexVal c) rest else none
  | acc, c :: rest =>
    if hexDigitB c then scanHex (acc * 16 + hexVal c) rest else none

/-- `int('0x' ++ tail, 16)`: Python tolerates trailing whitespace and requires a
nonempty digit run after the prefix; on failure `none` (a `ValueError`). -/
def hexTail (tail : List Char) : Option Nat :=
  let stripped := (tail.reverse.dropWhile Char.isWhitespace).reverse
  if stripped.isEmpty then none else scanHex 0 stripped

def starts0x (v : String) : Bool :=
  match v.data with
  | c1 :: c2 :: _ => c1 == '0' && c2 == 'x'
  | _ => false

/-- The value post-processing loop body, modelled exactly as written: two
sequential `if`s inside one `try` (the second test reads the original string),
with a failing hex conversion leaving the earlier result in place. -/
def postprocessValue (v : String) : Value :=
  let r1 := if pyIsDigit v then Value.int (decNat v.data) else Value.str v
  if starts0x v then
    match hexTail (v.data.drop 2) with
    | some n => Value.int n
    | none => r1
  else r1

/-- The same coercion as the specification words it: an `if / else if` chain —
all-decimal-digits first, hexadecimal second, original string on failure. -/
def coerceSpec (v : String) : Value :=
  if pyIsDigit v then Value.int (decNat v.data)
  else if starts0x v then
    match hexTail (v.data.drop 2) with
    | some n => Value.int n
    | none => Value.str v
  else Value.str v

def postAll (d : List (String × String)) : Record :=
  d.map (fun p => (p.1, postprocessValue p.2))

/-- `parse_message`: the tokenizer. Returns `none` (Python `None`) for blank
lines, lines without the substring `audit`, and lines failing the shape
regex; otherwise rewrites the match into `type=TAG time=SECS BODY`, scans
the `key=value` tokens and numerically post-processes every value. -/
def parse_message (line : String) : Option Record :=
  if (pyStrip line.data).isEmpty then none
  else if !(hasInfixL "audit".data (pyStrip line.data)) then none
  else
    match matchShape (afterDmesg (pyStrip line.data)) with
    | none => none
    | some (tag, secs, body) =>
      some (postAll (buildDict (scanPairs
        ("type=".data ++ tag ++ ' ' :: ("time=".data ++ secs ++ ' ' :: body)))))

/-- A raw audit line assembled from its components, in the shape the tokenizer
accepts (with the optional `msg=` present). -/
def mkLine (tag secs sub seq body : List Char) : String :=
  String.mk ("type=".data ++ tag ++ ' ' :: ("msg=audit(".data ++ secs ++
    '.' :: (sub ++ ':' :: (seq ++ ("): ".data ++ body)))))

/-! ## Renderer-side collaborators

The formatting helpers (`pretty_helper` / `format_helper`), the external
name-lookup tables and the `datetime` conversion live in modules that are not
among the sources; they are modelled from the specification as total string
producers (§4.5, §6). What the claims exercise is *which record fields the
type plugins access and how they default them*, which is fully in the
sources. -/

def valueText : Value → String
  | .int n => toString n
  | .str s => s

/-- Modelled from the spec: `pretty_helper` of the missing `pretty_utils`
module — one block of label, timestamp and suffix followed by the `info` and
`extra_info` fields; the `'?'` sentinel value is discarded
("'?' is special value and discarded by pretty_helper"). -/
def fieldText (p : String × Value) : List String :=
  if p.2 = Value.str "?" then [] else [p.1 ++ ": " ++ valueText p.2]

def pretty_helper (label : String) (time_ : Value) (urgency suffix : String)
    (info extra_info : List (String × Value)) : String :=
  String.intercalate "; "
    ([label ++ " [" ++ valueText time_ ++ "] " ++ urgency ++ " " ++ suffix]
      ++ (info.map fieldText).flatten ++ (extra_info.map fieldText).flatten)

/-- Modelled from the spec: `format_helper` of the missing `format_utils`
module — like `pretty_helper` but fields carry optional values and `None`
entries are omitted. -/
def fieldTextO (p : String × Option Value) : List String :=
  match p.2 with
  | none => []
  | some v => [p.1 ++ ": " ++ valueText v]

def format_helper (label : String) (timestamp : Option Int) (urgency suffix : String)
    (info extra_info : List (String × Option Value)) : String :=
  String.intercalate "; "
    ([label ++ " [" ++ (match timestamp with | some t => toString t | none => "-") ++ "] "
        ++ urgency ++ " " ++ suffix]
      ++ (info.map fieldTextO).flatten ++ (extra_info.map fieldTextO).flatten)

/-- Modelled from the spec: `LookupSignalName` (§6), a total name table. -/
def decode_signal (v : Value) : String := "signal(" ++ valueText v ++ ")"

/-- Modelled from the spec: `LookupSyscallName` keyed by architecture (§6). -/
def decode_syscall (sc arch : Value) : String :=
  "syscall(" ++ valueText sc ++ "," ++ valueText arch ++ ")"

/-- `datetime.fromtimestamp(x)`: accepts a number, raises `TypeError` on a
string. The timestamp itself is kept abstract as the integer. -/
def fromtimestampE : Value → Except PyError Int
  | .int n => .ok n
  | .str _ => .error "TypeError: fromtimestamp"

/-! ## Type plugins (from the sources) -/

/-- `default_pretty_printer` (parsers.py): concatenating the label with
`msg['type']` raises `KeyError` when the field is absent and `TypeError`
when its value is an integer. -/
def default_pretty_printer (msg : Record) (suffix : String) : Except PyError String :=
  match rlookup msg "type" with
  | none => .error "KeyError: type"
  | some (.int _) => .error "TypeError: can only concatenate str"
  | some (.str s) =>
    .ok (pretty_helper ("Unknown message type (type=" ++ s ++ ")")
      (rget msg "time" (Value.int 0)) "warn" suffix
      (msg.filter (fun p => !(p.1 == "time") && !(p.1 == "type"))) [])

/-- `apparmor_pretty` (parsers.py). The result pairs the lines printed as a
side effect during rendering (the non-DENIED branch prints a diagnostic)
with the returned text. -/
def apparmor_pretty (msg : Record) (suffix : String) :
    Except PyError (List String × String) :=
  match rlookup msg "apparmor" with
  | none => .error "KeyError: apparmor"
  | some v =>
    if v = Value.str "DENIED" then
      .ok ([], pretty_helper "AppArmor policy violation"
        (rget msg "time" (Value.int 0)) "warn" suffix
        [("Operation", rget msg "operation" (Value.str "?")),
         ("Profile", rget msg "profile" (Value.str "?")),
         ("Target", rget msg "name" (rget msg "peer" (Value.str "?"))),
         ("Denied mask", rget msg "denied_mask" (Value.str "?"))]
        [("Requested mask", rget msg "requested_mask" (Value.str "?")),
         ("Process ID", rget msg "pid" (Value.str "?")),
         ("FS UID", rget msg "fsuid" (Value.str "?")),
         ("OUID", rget msg "ouid" (Value.str "?"))])
    else
      match default_pretty_printer msg suffix with
      | .error e => .error e
      | .ok text => .ok (["Unknown AppArmor message type, printing as is."], text)

/-- `apparmor_main_info` (parsers.py): on DENIED messages `time`, `pid` and
`comm` are deleted unconditionally (`KeyError` when absent) and
`fsuid`/`ouid` only when present; other messages keep the full record. -/
def apparmor_main_info (msg : Record) : Except PyError Record :=
  match rlookup msg "apparmor" with
  | none => .error "KeyError: apparmor"
  | some v =>
    if v = Value.str "DENIED" then
      match delE msg "time" with
      | .error e => .error e
      | .ok m1 =>
        match delE m1 "pid" with
        | .error e => .error e
        | .ok m2 =>
          match delE m2 "comm" with
          | .error e => .error e
          | .ok m3 => .ok (rerase (rerase m3 "fsuid") "ouid")
    else .ok msg

/-- `seccomp_pretty` (parsers/seccomp.py, the registered SECCOMP renderer):
`time` and `sig` are accessed behind guards, `exe` and the extra fields via
`.get`, but `msg['syscall']` and `msg['arch']` are unguarded. -/
def seccomp_pretty (msg : Record) (suffix : String) :
    Except PyError (List String × String) :=
  match (match rlookup msg "time" with
         | some v => (fromtimestampE v).map some
         | none => .ok none) with
  | .error e => .error e
  | .ok ts =>
    let sigOpt : Option Value :=
      if rget msg "sig" (Value.int 0) ≠ Value.int 0 then
        some (Value.str (decode_signal (rget msg "sig" (Value.int 0))))
      else none
    match rlookup msg "syscall" with
    | none => .error "KeyError: syscall"
    | some sc =>
      match rlookup msg "arch" with
      | none => .error "KeyError: arch"
      | some arch =>
        .ok ([], format_helper "seccomp policy violation" ts "warn" suffix
          [("Executable", rlookup msg "exe"),
           ("Signal", sigOpt),
           ("System call", some (Value.str (decode_syscall sc arch)))]
          [("User ID", rlookup msg "uid"), ("Group ID", rlookup msg "gid"),
           ("AUID", rlookup msg "auid"), ("PID", rlookup msg "pid"),
           ("Thread name", rlookup msg "comm")])

/-- Modelled from the spec: `subdict` of the missing registry module —
restriction of a record to the given keys ("Significant fields are exactly
{type, exe, syscall} (optionally arch)"), keeping only present keys. -/
def subdict (msg : Record) (keys : List String) : Record :=
  msg.filter (fun p => keys.any (fun k => k == p.1))

/-- `seccomp_main_info` (parsers/seccomp.py). -/
def seccomp_main_info (msg : Record) : Record :=
  subdict msg ["type", "exe", "syscall", "arch"]

/-- `default_info_filter` (parsers.py): the deletions are applied to the copy
`m`, but the function returns `msg` — the original record, unfiltered. -/
def default_info_filter (msg : Record) : Record :=
  let m := rerase (rerase (rerase (rerase msg "time") "pid") "fsuid") "comm"
  msg

/-- Modelled from the spec: the default significant-fields extractor of the
missing registry module, the "equivalent newer path [that] correctly returns
the filtered copy" (§9) — full record minus the volatile fields
`time`/`pid`/`fsuid`/`comm` when present. -/
def default_main_info (msg : Record) : Record :=
  rerase (rerase (rerase (rerase msg "time") "pid") "fsuid") "comm"

/-! ## Type registry (modelled from the spec)

The registry module itself (`audit_pretty.parser`) is not among the sources;
its lookup is modelled from §4.2: registered entries for the AppArmor plugin
(tag `AVC`) and the seccomp plugin (tags `SECCOMP` and `1326`, the pair the
decorators in parsers/seccomp.py register), and a total default pair for
everything else. -/

def registeredTag : Value → Bool
  | .str s => s == "AVC" || s == "SECCOMP"
  | .int n => n == 1326

/-- `main_info_filters[msg['type']](msg)` — the significant-fields dispatch. -/
def mainInfoOf (msg : Record) : Except PyError Record :=
  match rlookup msg "type" with
  | none => .error "KeyError: type"
  | some t =>
    if t = Value.str "AVC" then apparmor_main_info msg
    else if t = Value.str "SECCOMP" ∨ t = Value.int 1326 then .ok (seccomp_main_info msg)
    else .ok (default_main_info msg)

/-- `pretty_printers[msg['type']](msg, suffix)` — the renderer dispatch.
The result pairs diagnostic lines printed during rendering with the text. -/
def renderOf (msg : Record) (suffix : String) :
    Except PyError (List String × String) :=
  match rlookup msg "type" with
  | none => .error "KeyError: type"
  | some t =>
    if t = Value.str "AVC" then apparmor_pretty msg suffix
    else if t = Value.str "SECCOMP" ∨ t = Value.int 1326 then seccomp_pretty msg suffix
    else
      match default_pretty_printer msg suffix with
      | .error e => .error e
      | .ok text => .ok ([], text)

/-! ## Dispatcher / filter -/

/-- The options structure `should_process` consumes (`--exclude`/`--only`
carry string tags only: argparse validates the raw strings against the
registry's choices). -/
structure Args where
  since : Int
  untl : Int
  exclude : List String
  only : List String
  hide_unknown : Bool
  merge : Bool
  count : Bool
deriving DecidableEq

/-- `msg['type'] in args.exclude`: a Python membership test of a value against
a list of strings — an integer value is simply not a member. -/
def tyMem (v : Value) (l : List String) : Bool :=
  match v with
  | .str s => l.any (fun x => x == s)
  | .int _ => false

/-- `should_process` (\_\_main\_\_.py). `none` models an uncaught exception:
`KeyError` when `msg['time']`/`msg['type']` is absent, `TypeError` when
`msg['time']` holds a string compared against an integer bound. The
time-window check short-circuits before any type inspection. -/
def should_process (args : Args) (msg : Option Record) : Option Bool :=
  match msg with
  | none => some false
  | some m =>
    match rlookup m "time" with
    | none => none
    | some (.str _) => none
    | some (.int t) =>
      if t < args.since ∨ t > args.untl then some false
      else
        match rlookup m "type" with
        | none => none
        | some ty =>
          if (!args.exclude.isEmpty && tyMem ty args.exclude)
              || (!args.only.isEmpty && !tyMem ty args.only) then some false
          else if !registeredTag ty && args.hide_unknown then some false
          else some true

/-! ## Equivalence keys (modelled from the spec)

`FrozenDict` lives in a module that is not among the sources; the spec fixes
its contract: an order-independent hashable representation of a record —
"two records with the same field set and values, regardless of field
insertion order, must map to the same key". It is modelled as the record in
key-sorted canonical form, so that dictionary-key equality is exactly
order-independent field-set equality. -/

/-- Lexicographic order on strings as character-code sequences. -/
def lexLe : List Char → List Char → Bool
  | [], _ => true
  | _ :: _, [] => false
  | a :: as, b :: bs =>
    if a.toNat < b.toNat then true
    else if b.toNat < a.toNat then false
    else lexLe as bs

def insSorted (p : String × Value) : List (String × Value) → List (String × Value)
  | [] => [p]
  | q :: qs => if lexLe p.1.data q.1.data then p :: q :: qs else q :: insSorted p qs

/-- Modelled from the spec: the equivalence key — the significant-fields
record in canonical (key-sorted) form. -/
def FrozenDict (r : Record) : Record := r.foldr insSorted []

/-! ## Deduplication / aggregation engine (\_\_main\_\_.py main loop) -/

/-- The accumulated `already_seen` table: equivalence key (which is itself the
representative significant-fields record) with its count, in first-seen
(insertion) order. -/
abbrev SeenMap := List (Record × Nat)

def seenHas (s : SeenMap) (k : Record) : Bool := s.any (fun p => p.1 = k)

/-- `already_seen.get(k)` — the stored count for a key. -/
def seenCount : SeenMap → Record → Option Nat
  | [], _ => none
  | p :: ps, k => if p.1 = k then some p.2 else seenCount ps k

/-- `already_seen[h] = already_seen.get(h, 0) + 1`: increment in place, or
append a fresh entry with count 1. -/
def bump (s : SeenMap) (k : Record) : SeenMap :=
  if seenHas s k then s.map (fun p => if p.1 = k then (p.1, p.2 + 1) else p)
  else s ++ [(k, 1)]

structure LoopState where
  seen : SeenMap
  out : List String
deriving DecidableEq

/-- The body of the read loop after the filter accepted `msg` (lines 138–147):
compute the significant fields, render (diagnostic prints happen here), then
either emit/suppress under merge/count or emit unconditionally. -/
def processMsg (args : Args) (st : LoopState) (msg : Record) :
    Except PyError LoopState :=
  match mainInfoOf msg with
  | .error e => .error e
  | .ok info =>
    match renderOf msg "" with
    | .error e => .error e
    | .ok (prints, text) =>
      if args.merge || args.count then
        let key := FrozenDict info
        let emit := !seenHas st.seen key && !args.count
        .ok ⟨bump st.seen key,
             st.out ++ prints ++ (if emit then [text] else [])⟩
      else .ok ⟨st.seen, st.out ++ prints ++ [text]⟩

/-- One full loop iteration for a raw input line. -/
def processLine (args : Args) (st : LoopState) (line : String) :
    Except PyError LoopState :=
  match parse_message line with
  | none => .ok st
  | some m =>
    match should_process args (some m) with
    | none => .error "TypeError: unorderable comparison"
    | some false => .ok st
    | some true => processMsg args st m

/-- One end-of-stream summary block (line 150): re-render the stored
representative record with the `(N)` suffix; the diagnostic lines a renderer
prints come out just before its block. -/
def renderEntry (e : Record × Nat) : Except PyError (List String) :=
  match renderOf e.1 ("(" ++ toString e.2 ++ ")") with
  | .error err => .error err
  | .ok (prints, text) => .ok (prints ++ [text])

def flushGo : SeenMap → Except PyError (List String)
  | [] => .ok []
  | e :: es =>
    match renderEntry e with
    | .error err => .error err
    | .ok lines =>
      match flushGo es with
      | .error err => .error err
      | .ok rest => .ok (lines ++ rest)

/-- The end-of-stream flush (lines 148–151): in count mode only, iterate the
accumulated entries in stored (first-seen) order. -/
def flushCount (args : Args) (s : SeenMap) : Except PyError (List String) :=
  if args.count then flushGo s else .ok []

/-- The whole run: fold the loop over the input lines, then flush. The output
is the ordered list of printed lines. -/
def runMain (args : Args) (lines : List String) : Except PyError (List String) :=
  match lines.foldlM (processLine args) ⟨[], []⟩ with
  | .error e => .error e
  | .ok st =>
    match flushCount args st.seen with
    | .error e => .error e
    | .ok fl => .ok (st.out ++ fl)

/-! # Theorems -/

/-! ## C1 — the legacy default significant-fields extractor -/

/-- C1: evaluating `default_info_filter` at a record carrying all four volatile
fields shows that the code returns the source record itself — the deletions
were applied to the discarded copy `m`, so `time` (and `pid`, `fsuid`,
`comm`) are still present and the result is not a filtered fresh record. -/
theorem c1_code_eval :
    default_info_filter [("type", Value.str "FOO"), ("time", Value.int 11),
        ("pid", Value.int 2), ("fsuid", Value.int 3), ("comm", Value.str "c"),
        ("a", Value.str "b")]
      = [("type", Value.str "FOO"), ("time", Value.int 11), ("pid", Value.int 2),
         ("fsuid", Value.int 3), ("comm", Value.str "c"), ("a", Value.str "b")]
    ∧ rlookup (default_info_filter [("type", Value.str "FOO"),
        ("time", Value.int 11), ("pid", Value.int 2), ("fsuid", Value.int 3),
        ("comm", Value.str "c"), ("a", Value.str "b")]) "time"
      = some (Value.int 11) :=
  ⟨rfl, rfl⟩

/-! ## C3 — numeric post-processing of tokenized values -/

theorem digit_not_0x (v : String) (h : pyIsDigit v = true) : starts0x v = false := by
  unfold pyIsDigit at h
  unfold starts0x
  cases hd : v.data with
  | nil => rfl
  | cons c1 rest =>
    cases rest with
    | nil => rfl
    | cons c2 t =>
      rw [hd] at h
      simp only [List.isEmpty_cons, Bool.not_false, List.all_cons, Bool.true_and,
        Bool.and_eq_true] at h
      have hc2 : Char.isDigit c2 = true := h.2.1
      have hne : c2 ≠ 'x' := by
        intro e
        rw [e] at hc2
        exact absurd hc2 (by decide)
      simp [hne]

/-- C3: the tokenizer post-processing of every field value agrees with the
specified coercion chain — all-decimal-digit strings become integers,
otherwise strings beginning with `0x` are parsed as hexadecimal integers,
and a failing coercion leaves the original string. The functions are total:
the `ValueError` of a failing `int(v, 16)` is absorbed into keeping the
string, so tokenization never raises. -/
theorem c3_value_coercion :
    (∀ v : String, postprocessValue v = coerceSpec v)
    ∧ ∀ d : List (String × String), postAll d = d.map (fun p => (p.1, coerceSpec p.2)) := by
  have h1 : ∀ v : String, postprocessValue v = coerceSpec v := by
    intro v
    unfold postprocessValue coerceSpec
    by_cases hd : pyIsDigit v
    · simp [hd, digit_not_0x v hd]
    · simp [hd]
  refine ⟨h1, fun d => ?_⟩
  unfold postAll
  induction d with
  | nil => rfl
  | cons p ps ih => simp [ih, h1 p.2]

/-! ## C5 — time-window rejection -/

/-- C5: `should_process` rejects every record whose integer `time` value lies
outside `[since, until]`, and when `since > until` it rejects every record
with an integer `time` field (every record of the pipeline, per the §3
invariant) regardless of its other contents. -/
theorem c5_time_window (a : Args) (m : Record) (t : Int)
    (ht : rlookup m "time" = some (Value.int t)) :
    ((t < a.since ∨ t > a.untl) → should_process a (some m) = some false)
    ∧ (a.since > a.untl → should_process a (some m) = some false) := by
  constructor
  · intro hout
    simp [should_process, ht, hout]
  · intro hlt
    have hout : t < a.since ∨ t > a.untl := by
      rcases lt_or_ge t a.since with h | h
      · exact Or.inl h
      · exact Or.inr (lt_of_lt_of_le hlt h)
    simp [should_process, ht, hout]

/-- Witness for C5 at `since=100`, `until=50`, a record with `time=75`. -/
theorem c5_witness :
    should_process ⟨100, 50, [], [], false, false, false⟩
      (some [("time", Value.int 75)]) = some false :=
  (c5_time_window ⟨100, 50, [], [], false, false, false⟩
    [("time", Value.int 75)] 75 rfl).2 (by decide)

/-! ## C8 — time-window rejection is stable under type-filter changes -/

/-- C8: if a record is rejected for time-window reasons (its integer `time`
lies outside `[since, until]`), then any configuration with the same window
— whatever its exclude set, only set or hide-unknown flag — also rejects
it: the window check short-circuits before any type-based check. -/
theorem c8_filter_monotone (a b : Args) (m : Record) (t : Int)
    (hsince : b.since = a.since) (huntl : b.untl = a.untl)
    (ht : rlookup m "time" = some (Value.int t))
    (hout : t < a.since ∨ t > a.untl) :
    should_process b (some m) = some false := by
  simp [should_process, ht, hsince, huntl, hout]

/-- Witness for C8: a record outside the window stays rejected under a
configuration with a nonempty exclude set and hide-unknown enabled. -/
theorem c8_witness :
    should_process ⟨0, 10, ["AVC"], [], true, false, false⟩
      (some [("time", Value.int 99), ("type", Value.str "AVC")]) = some false :=
  c8_filter_monotone ⟨0, 10, [], [], false, false, false⟩
    ⟨0, 10, ["AVC"], [], true, false, false⟩
    [("time", Value.int 99), ("type", Value.str "AVC")] 99 rfl rfl rfl (by decide)

/-! ## C4 — rejected lines produce nothing -/

/-- C4: a line that is blank after stripping, or lacks the substring `audit`,
or fails the shape regex (after the dmesg-prefix strip), tokenizes to
`Absent`, and processing such a line leaves the loop state — accumulated
table and output — unchanged. -/
theorem c4_reject (line : String)
    (h : pyStrip line.data = []
        ∨ hasInfixL "audit".data (pyStrip line.data) = false
        ∨ matchShape (afterDmesg (pyStrip line.data)) = none) :
    parse_message line = none
    ∧ ∀ (a : Args) (st : LoopState), processLine a st line = .ok st := by
  have hp : parse_message line = none := by
    unfold parse_message
    rcases h with h | h | h
    · simp [h]
    · by_cases he : (pyStrip line.data).isEmpty
      · simp [he]
      · simp [he, h]
    · by_cases he : (pyStrip line.data).isEmpty
      · simp [he]
      · by_cases ha : hasInfixL "audit".data (pyStrip line.data)
        · simp [he, ha, h]
        · simp [he, ha]
  refine ⟨hp, fun a st => ?_⟩
  unfold processLine
  rw [hp]

/-- Witness for C4 at the line `hello` (no `audit` substring). -/
theorem c4_witness :
    parse_message "hello" = none
    ∧ processLine ⟨0, 1, [], [], false, false, false⟩ ⟨[], []⟩ "hello" = .ok ⟨[], []⟩ := by
  have h := c4_reject "hello" (Or.inr (Or.inl (by decide)))
  exact ⟨h.1, h.2 _ _⟩

/-! ## C2 — counterexample: a suppressed duplicate still produces output -/

/-- C2 fails as stated: in merge mode, feeding the same accepted AVC line
twice produces three output lines, not two — the already-seen record is
re-rendered (line 139 runs before the merge check), and the non-DENIED
AppArmor renderer prints its diagnostic line each time. So a record whose
key was already seen does not merely increment the count with no output. -/
theorem c2_counterexample :
    (runMain ⟨0, 18446744073709551615, [], [], false, true, false⟩
        ["type=AVC msg=audit(1.0:1): apparmor=STATUS"]).map List.length = .ok 2
    ∧ (runMain ⟨0, 18446744073709551615, [], [], false, true, false⟩
        ["type=AVC msg=audit(1.0:1): apparmor=STATUS",
         "type=AVC msg=audit(1.0:1): apparmor=STATUS"]).map List.length = .ok 3
    ∧ runMain ⟨0, 18446744073709551615, [], [], false, true, false⟩
        ["type=AVC msg=audit(1.0:1): apparmor=STATUS",
         "type=AVC msg=audit(1.0:1): apparmor=STATUS"]
      = .ok ["Unknown AppArmor message type, printing as is.",
             "Unknown message type (type=AVC) [1] warn ; apparmor: STATUS",
             "Unknown AppArmor message type, printing as is."] :=
  ⟨rfl, rfl, rfl⟩

/-! ## C6 — counterexample: renderers do raise on some absent fields -/

/-- C6 fails as stated: `apparmor_pretty` raises `KeyError` when the requested
field `apparmor` is absent, and the registered `seccomp_pretty` raises
`KeyError` when `syscall` is absent — a missing requested field is not
always rendered as a placeholder. -/
theorem c6_counterexample :
    apparmor_pretty [("type", Value.str "AVC")] "" = .error "KeyError: apparmor"
    ∧ seccomp_pretty [("type", Value.str "SECCOMP")] "" = .error "KeyError: syscall" :=
  ⟨rfl, rfl⟩

/-! ## C9 — counterexample: an all-digit tag is coerced to an integer -/

/-- C9 fails as stated: for the accepted line `type=1326 audit(1.0:1): a=b`,
whose tag consists only of digits, the produced record's `type` value is
the integer 1326, not the string tag `"1326"` — the numeric post-processing
also applies to the synthesized `type` field. -/
theorem c9_counterexample :
    (parse_message "type=1326 audit(1.0:1): a=b").bind (fun r => rlookup r "type")
      = some (Value.int 1326)
    ∧ (parse_message "type=1326 audit(1.0:1): a=b").bind (fun r => rlookup r "type")
      ≠ some (Value.str "1326") :=
  ⟨rfl, by decide⟩

/-! ## C10 — counterexample: a body `time=` pair destroys the integer time -/

/-- C10 fails as stated: the accepted line `type=AVC msg=audit(5.0:1): time=x`
yields a record whose `time` value is the string `"x"` (the body pair
overwrites the synthesized integer, last-write-wins), and `should_process`
then crashes on it (`none`, the modelled `TypeError` of comparing a string
with an integer bound) instead of never failing. -/
theorem c10_counterexample :
    (parse_message "type=AVC msg=audit(5.0:1): time=x").bind (fun r => rlookup r "time")
      = some (Value.str "x")
    ∧ should_process ⟨0, 18446744073709551615, [], [], false, false, false⟩
        (parse_message "type=AVC msg=audit(5.0:1): time=x") = none :=
  ⟨rfl, rfl⟩

/-! ## C7 — equivalence keys are insertion-order independent -/

theorem lexLe_refl : ∀ a : List Char, lexLe a a = true
  | [] => rfl
  | c :: cs => by
    unfold lexLe
    simp [lexLe_refl cs]

theorem lexLe_total : ∀ a b : List Char, lexLe a b = true ∨ lexLe b a = true
  | [], _ => Or.inl rfl
  | _ :: _, [] => Or.inr rfl
  | a :: as, b :: bs => by
    unfold lexLe
    by_cases hab : a.toNat < b.toNat
    · exact Or.inl (by rw [if_pos hab])
    · by_cases hba : b.toNat < a.toNat
      · exact Or.inr (by rw [if_pos hba])
      · rw [if_neg hab, if_neg hba, if_neg hba, if_neg hab]
        exact lexLe_total as bs

theorem lexLe_trans : ∀ a b c : List Char,
    lexLe a b = true → lexLe b c = true → lexLe a c = true
  | [], _, _, _, _ => rfl
  | _ :: _, [], _, h1, _ => by simp [lexLe] at h1
  | _ :: _, _ :: _, [], _, h2 => by simp [lexLe] at h2
  | a :: as, b :: bs, c :: cs, h1, h2 => by
    unfold lexLe at h1 h2 ⊢
    by_cases hab : a.toNat < b.toNat
    · by_cases hbc : b.toNat < c.toNat
      · rw [if_pos (Nat.lt_trans hab hbc)]
      · by_cases hcb : c.toNat < b.toNat
        · rw [if_neg hbc, if_pos hcb] at h2
          exact absurd h2 (by decide)
        · rw [if_pos (by omega : a.toNat < c.toNat)]
    · by_cases hba : b.toNat < a.toNat
      · rw [if_neg hab, if_pos hba] at h1
        exact absurd h1 (by decide)
      · rw [if_neg hab, if_neg hba] at h1
        by_cases hbc : b.toNat < c.toNat
        · rw [if_pos (by omega : a.toNat < c.toNat)]
        · by_cases hcb : c.toNat < b.toNat
          · rw [if_neg hbc, if_pos hcb] at h2
            exact absurd h2 (by decide)
          · rw [if_neg hbc, if_neg hcb] at h2
            rw [if_neg (by omega : ¬ a.toNat < c.toNat),
                if_neg (by omega : ¬ c.toNat < a.toNat)]
            exact lexLe_trans as bs cs h1 h2

theorem lexLe_antisymm : ∀ a b : List Char,
    lexLe a b = true → lexLe b a = true → a = b
  | [], [], _, _ => rfl
  | _ :: _, [], h1, _ => by simp [lexLe] at h1
  | [], _ :: _, _, h2 => by simp [lexLe] at h2
  | a :: as, b :: bs, h1, h2 => by
    unfold lexLe at h1 h2
    by_cases hab : a.toNat < b.toNat
    · rw [if_neg (by omega : ¬ b.toNat < a.toNat), if_pos hab] at h2
      exact absurd h2 (by decide)
    · by_cases hba : b.toNat < a.toNat
      · rw [if_neg hab, if_pos hba] at h1
        exact absurd h1 (by decide)
      · rw [if_neg hab, if_neg hba] at h1
        rw [if_neg hba, if_neg hab] at h2
        have hn : a.toNat = b.toNat := by omega
        have hc : a = b := by
          apply Char.ext
          apply UInt32.ext
          exact hn
        rw [hc, lexLe_antisymm as bs h1 h2]

/-- The key order used by the canonical form. -/
def keyLe (p q : String × Value) : Prop := lexLe p.1.data q.1.data = true

theorem perm_insSorted (p : String × Value) :
    ∀ l : List (String × Value), (insSorted p l).Perm (p :: l)
  | [] => List.Perm.refl _
  | q :: qs => by
    unfold insSorted
    by_cases h : lexLe p.1.data q.1.data = true
    · rw [if_pos h]
    · rw [if_neg h]
      exact ((perm_insSorted p qs).cons q).trans (List.Perm.swap p q qs)

theorem perm_FrozenDict (r : Record) : (FrozenDict r).Perm r := by
  unfold FrozenDict
  induction r with
  | nil => exact List.Perm.refl _
  | cons p ps ih => exact (perm_insSorted p _).trans (ih.cons p)

theorem pairwise_insSorted (p : String × Value) (l : List (String × Value))
    (hl : l.Pairwise keyLe) : (insSorted p l).Pairwise keyLe := by
  induction l with
  | nil => simp [insSorted, keyLe]
  | cons q qs ih =>
    rcases List.pairwise_cons.mp hl with ⟨hq, hqs⟩
    unfold insSorted
    by_cases h : lexLe p.1.data q.1.data = true
    · rw [if_pos h]
      refine List.pairwise_cons.mpr ⟨?_, hl⟩
      intro x hx
      rcases List.mem_cons.mp hx with rfl | hx2
      · exact h
      · exact lexLe_trans _ _ _ h (hq x hx2)
    · rw [if_neg h]
      refine List.pairwise_cons.mpr ⟨?_, ih hqs⟩
      intro x hx
      have hx2 : x ∈ p :: qs := (perm_insSorted p qs).mem_iff.mp hx
      rcases List.mem_cons.mp hx2 with rfl | hx3
      · rcases lexLe_total x.1.data q.1.data with ht | ht
        · exact absurd ht h
        · exact ht
      · exact hq x hx3

theorem pairwise_FrozenDict (r : Record) : (FrozenDict r).Pairwise keyLe := by
  unfold FrozenDict
  induction r with
  | nil => simp
  | cons p ps ih => exact pairwise_insSorted p _ ih

theorem mem_of_rlookup_some : ∀ (r : Record) (k : String) (v : Value),
    rlookup r k = some v → (k, v) ∈ r
  | [], k, v, h => by simp [rlookup] at h
  | p :: ps, k, v, h => by
    by_cases hk : p.1 = k
    · rw [rlookup, if_pos hk] at h
      have hv : v = p.2 := (Option.some_inj.mp h).symm
      subst hv
      subst hk
      rw [Prod.mk.eta]
      exact List.mem_cons_self p ps
    · rw [rlookup, if_neg hk] at h
      exact List.mem_cons_of_mem p (mem_of_rlookup_some ps k v h)

theorem rlookup_some_of_mem : ∀ (r : Record), (r.map Prod.fst).Nodup →
    ∀ (k : String) (v : Value), (k, v) ∈ r → rlookup r k = some v
  | [], _, k, v, h => absurd h (List.not_mem_nil _)
  | p :: ps, hn, k, v, h => by
    have hn2 := List.nodup_cons.mp hn
    rcases List.mem_cons.mp h with he | hm
    · rw [rlookup, if_pos (congrArg Prod.fst he).symm]
      rw [show v = p.2 from congrArg Prod.snd he]
    · have hk : p.1 ≠ k := by
        intro e
        apply hn2.1
        rw [e]
        exact List.mem_map_of_mem Prod.fst hm
      rw [rlookup, if_neg hk]
      exact rlookup_some_of_mem ps hn2.2 k v hm

theorem rlookup_eq_some_iff (r : Record) (hn : (r.map Prod.fst).Nodup)
    (k : String) (v : Value) : rlookup r k = some v ↔ (k, v) ∈ r :=
  ⟨mem_of_rlookup_some r k v, rlookup_some_of_mem r hn k v⟩

theorem rlookup_eq_none_iff (r : Record) (k : String) :
    rlookup r k = none ↔ k ∉ r.map Prod.fst := by
  induction r with
  | nil => simp [rlookup]
  | cons p ps ih =>
    by_cases hk : p.1 = k
    · simp [rlookup, hk]
    · simp [rlookup, hk, ih, Ne.symm hk]

theorem rlookup_perm (r1 r2 : Record) (h : r1.Perm r2)
    (hn : (r1.map Prod.fst).Nodup) (k : String) :
    rlookup r1 k = rlookup r2 k := by
  have hn2 : (r2.map Prod.fst).Nodup := ((h.map Prod.fst).nodup_iff).mp hn
  cases hv : rlookup r1 k with
  | none =>
    have := (rlookup_eq_none_iff r1 k).mp hv
    symm
    rw [rlookup_eq_none_iff]
    intro hmem
    exact this (((h.map Prod.fst).mem_iff).mpr hmem)
  | some v =>
    have hm : (k, v) ∈ r2 := h.mem_iff.mp ((rlookup_eq_some_iff r1 hn k v).mp hv)
    exact ((rlookup_eq_some_iff r2 hn2 k v).mpr hm).symm

theorem sorted_nodup_lookup_ext :
    ∀ l1 l2 : Record, l1.Pairwise keyLe → l2.Pairwise keyLe →
      (l1.map Prod.fst).Nodup → (l2.map Prod.fst).Nodup →
      (∀ k, rlookup l1 k = rlookup l2 k) → l1 = l2
  | [], [], _, _, _, _, _ => rfl
  | [], q :: qs, _, _, _, _, hlook => by
    have h := hlook q.1
    simp [rlookup] at h
  | p :: ps, [], _, _, _, _, hlook => by
    have h := hlook p.1
    simp [rlookup] at h
  | p :: ps, q :: qs, hs1, hs2, hn1, hn2, hlook => by
    rcases List.pairwise_cons.mp hs1 with ⟨hpmin, hps⟩
    rcases List.pairwise_cons.mp hs2 with ⟨hqmin, hqs⟩
    rcases List.nodup_cons.mp hn1 with ⟨hp1, hps1⟩
    rcases List.nodup_cons.mp hn2 with ⟨hq1, hqs1⟩
    have hlp : rlookup (p :: ps) p.1 = some p.2 := by simp [rlookup]
    have hlq : rlookup (q :: qs) q.1 = some q.2 := by simp [rlookup]
    have hl2p : rlookup (q :: qs) p.1 = some p.2 := (hlook p.1).symm.trans hlp
    have hl1q : rlookup (p :: ps) q.1 = some q.2 := (hlook q.1).trans hlq
    have hpin : (p.1, p.2) ∈ q :: qs := mem_of_rlookup_some _ _ _ hl2p
    have hqin : (q.1, q.2) ∈ p :: ps := mem_of_rlookup_some _ _ _ hl1q
    have hqp : lexLe q.1.data p.1.data = true := by
      rcases List.mem_cons.mp hpin with he | hm
      · rw [show q.1 = p.1 from (congrArg Prod.fst he).symm]
        exact lexLe_refl _
      · exact hqmin (p.1, p.2) hm
    have hpq : lexLe p.1.data q.1.data = true := by
      rcases List.mem_cons.mp hqin with he | hm
      · rw [show p.1 = q.1 from (congrArg Prod.fst he).symm]
        exact lexLe_refl _
      · exact hpmin (q.1, q.2) hm
    have hkey : p.1 = q.1 := by
      have hd : p.1.data = q.1.data := lexLe_antisymm _ _ hpq hqp
      cases hp : p.1 with
      | mk d1 =>
        cases hq : q.1 with
        | mk d2 =>
          rw [hp, hq] at hd
          exact congrArg String.mk hd
    have hval : p.2 = q.2 := by
      have h1 : rlookup (q :: qs) q.1 = some p.2 := hkey ▸ hl2p
      rw [hlq] at h1
      exact (Option.some_inj.mp h1).symm
    have htail : ∀ k2, rlookup ps k2 = rlookup qs k2 := by
      intro k2
      by_cases hk : k2 = p.1
      · rw [hk, (rlookup_eq_none_iff ps p.1).mpr hp1,
            (rlookup_eq_none_iff qs p.1).mpr (hkey ▸ hq1)]
      · have h1 := hlook k2
        rw [rlookup, if_neg (fun e => hk e.symm)] at h1
        rw [rlookup, if_neg (fun e => hk (e.symm.trans hkey.symm))] at h1
        exact h1
    have hrest := sorted_nodup_lookup_ext ps qs hps hqs hps1 hqs1 htail
    have hpq2 : p = q := by
      cases p
      cases q
      simp only [Prod.mk.injEq]
      exact ⟨hkey, hval⟩
    rw [hpq2, hrest]

/-- C7: the equivalence key is insertion-order independent — two
significant-fields records with the same keys and the same values (as field
lookups), each with duplicate-free keys, canonicalize to the same
`FrozenDict` key and therefore land in the same aggregation group. -/
theorem c7_equivalence_key (r1 r2 : Record)
    (h1 : (r1.map Prod.fst).Nodup) (h2 : (r2.map Prod.fst).Nodup)
    (hsame : ∀ k, rlookup r1 k = rlookup r2 k) :
    FrozenDict r1 = FrozenDict r2 := by
  apply sorted_nodup_lookup_ext _ _ (pairwise_FrozenDict r1) (pairwise_FrozenDict r2)
  · exact (((perm_FrozenDict r1).map Prod.fst).nodup_iff).mpr h1
  · exact (((perm_FrozenDict r2).map Prod.fst).nodup_iff).mpr h2
  · intro k
    rw [rlookup_perm _ _ (perm_FrozenDict r1)
          ((((perm_FrozenDict r1).map Prod.fst).nodup_iff).mpr h1) k,
        rlookup_perm _ _ (perm_FrozenDict r2)
          ((((perm_FrozenDict r2).map Prod.fst).nodup_iff).mpr h2) k]
    exact hsame k

/-- Witness for C7: two two-field records inserted in opposite orders share
their equivalence key. -/
theorem c7_witness :
    FrozenDict [("profile", Value.str "p"), ("operation", Value.str "open")]
      = FrozenDict [("operation", Value.str "open"), ("profile", Value.str "p")] := by
  apply c7_equivalence_key _ _ (by decide) (by decide)
  intro k
  by_cases ha : "profile" = k <;> by_cases hb : "operation" = k
  · exact absurd (ha.trans hb.symm) (by decide)
  · simp [rlookup, ha, hb]
  · simp [rlookup, ha, hb]
  · simp [rlookup, ha, hb]

/-! ## C2 — the merge/count engine (amended) -/

theorem seenHas_iff_mem (s : SeenMap) (k : Record) :
    seenHas s k = true ↔ k ∈ s.map Prod.fst := by
  induction s with
  | nil => simp [seenHas]
  | cons p ps ih =>
    simp only [seenHas, List.any_cons, Bool.or_eq_true, List.map_cons, List.mem_cons]
    rw [show (ps.any (fun p => decide (p.1 = k)) = true) ↔ k ∈ ps.map Prod.fst from ih]
    simp [eq_comm]

theorem seenHas_of_count (s : SeenMap) (k : Record) (n : Nat)
    (h : seenCount s k = some n) : seenHas s k = true := by
  induction s with
  | nil => simp [seenCount] at h
  | cons p ps ih =>
    by_cases hk : p.1 = k
    · simp [seenHas, hk]
    · rw [seenCount, if_neg hk] at h
      simp only [seenHas, List.any_cons, Bool.or_eq_true]
      exact Or.inr (ih h)

theorem bump_of_has (s : SeenMap) (k : Record) (h : seenHas s k = true) :
    bump s k = s.map (fun p => if p.1 = k then (p.1, p.2 + 1) else p) := by
  simp [bump, h]

theorem bump_of_not_has (s : SeenMap) (k : Record) (h : seenHas s k = false) :
    bump s k = s ++ [(k, 1)] := by
  simp [bump, h]

theorem seenCount_bump_map (s : SeenMap) (k : Record) :
    seenCount (s.map (fun p => if p.1 = k then (p.1, p.2 + 1) else p)) k
      = (seenCount s k).map (· + 1) := by
  induction s with
  | nil => simp [seenCount]
  | cons p ps ih =>
    by_cases hk : p.1 = k
    · simp [seenCount, hk]
    · simp only [List.map_cons, if_neg hk]
      rw [seenCount, if_neg hk, seenCount, if_neg hk]
      exact ih

theorem map_fst_bump_map (s : SeenMap) (k : Record) :
    (s.map (fun p => if p.1 = k then (p.1, p.2 + 1) else p)).map Prod.fst
      = s.map Prod.fst := by
  induction s with
  | nil => rfl
  | cons p ps ih =>
    by_cases hk : p.1 = k
    · simp [hk, ih]
    · simp [hk, ih]

theorem bump_keys (s : SeenMap) (k : Record) :
    (bump s k).map Prod.fst
      = if k ∈ s.map Prod.fst then s.map Prod.fst else s.map Prod.fst ++ [k] := by
  by_cases h : seenHas s k = true
  · rw [bump_of_has s k h, map_fst_bump_map, if_pos ((seenHas_iff_mem s k).mp h)]
  · have hf : seenHas s k = false := by
      revert h
      cases seenHas s k <;> simp
    rw [bump_of_not_has s k hf]
    rw [if_neg (fun hm => by rw [(seenHas_iff_mem s k).mpr hm] at hf; cases hf)]
    simp

theorem foldl_bump_keys : ∀ (ks : List Record) (s : SeenMap),
    ((ks.foldl bump s).map Prod.fst)
      = ks.foldl (fun acc k => if k ∈ acc then acc else acc ++ [k]) (s.map Prod.fst)
  | [], s => rfl
  | k :: ks, s => by
    rw [List.foldl_cons, List.foldl_cons, foldl_bump_keys ks (bump s k), bump_keys]

/-- C2 (amended): the behaviour of the engine at lines 140–151. In merge mode
an accepted record is rendered first (its renderer's diagnostic prints are
emitted even when the record is suppressed); an unseen key appends an entry
with count 1 at the end of the table and emits the rendered block, an
already-seen key only increments the stored count in place and discards the
block. In count mode the block is never emitted during the stream. The
end-of-stream flush renders one block per stored entry with the `(N)` count
suffix, in stored order — and since new keys are appended at the end and
increments keep positions, the stored order is first-occurrence order (the
final conjunct: the accumulated key list equals the input keys deduplicated
in first-occurrence order). -/
theorem c2_amended (a : Args) (st : LoopState) (msg info : Record)
    (prints : List String) (text : String)
    (hinfo : mainInfoOf msg = .ok info)
    (hrender : renderOf msg "" = .ok (prints, text)) :
    ((a.merge = true ∧ a.count = false ∧ seenHas st.seen (FrozenDict info) = false) →
       processMsg a st msg
         = .ok ⟨st.seen ++ [(FrozenDict info, 1)], st.out ++ prints ++ [text]⟩)
    ∧ ((a.merge = true ∧ a.count = false ∧ seenHas st.seen (FrozenDict info) = true) →
       processMsg a st msg
         = .ok ⟨bump st.seen (FrozenDict info), st.out ++ prints⟩)
    ∧ (a.count = true →
       processMsg a st msg
         = .ok ⟨bump st.seen (FrozenDict info), st.out ++ prints⟩)
    ∧ (∀ (s : SeenMap) (k : Record) (n : Nat), seenCount s k = some n →
        seenCount (bump s k) k = some (n + 1)
        ∧ (bump s k).map Prod.fst = s.map Prod.fst)
    ∧ (∀ (s : SeenMap) (k : Record), seenHas s k = false → bump s k = s ++ [(k, 1)])
    ∧ (∀ (e : Record × Nat) (s : SeenMap) (ls rest : List String),
        renderEntry e = .ok ls → flushGo s = .ok rest →
        flushGo (e :: s) = .ok (ls ++ rest))
    ∧ (∀ (rec : Record) (n : Nat) (ps2 : List String) (tx : String),
        renderOf rec ("(" ++ toString n ++ ")") = .ok (ps2, tx) →
        renderEntry (rec, n) = .ok (ps2 ++ [tx]))
    ∧ (∀ ks : List Record,
        ((ks.foldl bump []).map Prod.fst)
          = ks.foldl (fun acc k => if k ∈ acc then acc else acc ++ [k]) []) := by
  refine ⟨?_, ?_, ?_, ?_, ?_, ?_, ?_, ?_⟩
  · rintro ⟨hm, hc, hs⟩
    simp [processMsg, hinfo, hrender, hm, hc, hs, bump]
  · rintro ⟨hm, hc, hs⟩
    simp [processMsg, hinfo, hrender, hm, hc, hs]
  · intro hc
    simp [processMsg, hinfo, hrender, hc]
  · intro s k n h
    rw [bump_of_has s k (seenHas_of_count s k n h)]
    constructor
    · rw [seenCount_bump_map, h]
      rfl
    · exact map_fst_bump_map s k
  · exact bump_of_not_has
  · intro e s ls rest h1 h2
    rw [flushGo, h1, h2]
  · intro rec n ps2 tx h
    rw [renderEntry, h]
  · intro ks
    exact foldl_bump_keys ks []

/-- Witness for C2 (amended): one unknown-type record in merge mode is
rendered, emitted and recorded with count 1. -/
theorem c2_amended_witness :
    ∃ t : String,
      renderOf [("type", Value.str "FOO"), ("x", Value.int 1)] "" = .ok ([], t)
      ∧ processMsg ⟨0, 100, [], [], false, true, false⟩ ⟨[], []⟩
          [("type", Value.str "FOO"), ("x", Value.int 1)]
        = .ok ⟨[(FrozenDict [("type", Value.str "FOO"), ("x", Value.int 1)], 1)], [t]⟩ :=
  ⟨_, rfl, (c2_amended ⟨0, 100, [], [], false, true, false⟩ ⟨[], []⟩
      [("type", Value.str "FOO"), ("x", Value.int 1)]
      [("type", Value.str "FOO"), ("x", Value.int 1)] [] _ rfl rfl).1
    ⟨rfl, rfl, rfl⟩⟩

/-! ## C6 — which absent fields are tolerated (amended) -/

theorem rlookup_isSome_of_hasKey (r : Record) (k : String) (h : rhasKey r k = true) :
    ∃ v, rlookup r k = some v := by
  induction r with
  | nil => simp [rhasKey] at h
  | cons p ps ih =>
    by_cases hk : p.1 = k
    · exact ⟨p.2, by rw [rlookup, if_pos hk]⟩
    · rw [rlookup, if_neg hk]
      apply ih
      simp only [rhasKey, List.any_cons, Bool.or_eq_true] at h
      rcases h with h | h
      · exact absurd (by simpa using h) hk
      · exact h

theorem rhasKey_rerase_ne (r : Record) (k k2 : String) (h : k2 ≠ k) :
    rhasKey (rerase r k) k2 = rhasKey r k2 := by
  induction r with
  | nil => rfl
  | cons p ps ih =>
    by_cases hp : p.1 = k
    · rw [rerase, List.filter_cons, if_neg (by simp [hp])]
      rw [show List.filter (fun p => !(p.1 == k)) ps = rerase ps k from rfl, ih]
      simp only [rhasKey, List.any_cons, Bool.or_eq_true]
      have : (p.1 == k2) = false := by
        simp only [beq_eq_false_iff_ne, ne_eq]
        rw [hp]
        exact fun e => h e.symm
      simp [this, rhasKey]
    · rw [rerase, List.filter_cons, if_pos (by simp [hp])]
      simp only [rhasKey, List.any_cons]
      rw [show List.filter (fun p => !(p.1 == k)) ps = rerase ps k from rfl]
      rw [show (rerase ps k).any (fun p => p.1 == k2) = rhasKey (rerase ps k) k2 from rfl,
          ih]
      rfl

/-- C6 (amended): absent fields that the type plugins request through `.get`
render as the `'?'` placeholder or are omitted, and never fail — but each
plugin has required fields: `apparmor_pretty` needs `apparmor` (given
`apparmor=DENIED` it renders successfully with every other field absent),
the registered `seccomp_pretty` needs `syscall` and `arch` (and an integer
or absent `time`), and `apparmor_main_info` on a DENIED record needs
`time`, `pid` and `comm` to be present. -/
theorem c6_amended (msg : Record) (sfx : String) :
    (rlookup msg "apparmor" = some (Value.str "DENIED") →
       ∃ out, apparmor_pretty msg sfx = .ok ([], out))
    ∧ (rhasKey msg "syscall" = true → rhasKey msg "arch" = true →
       (rlookup msg "time" = none ∨ ∃ n : Int, rlookup msg "time" = some (Value.int n)) →
       ∃ out, seccomp_pretty msg sfx = .ok ([], out))
    ∧ (rlookup msg "apparmor" = some (Value.str "DENIED") →
       rhasKey msg "time" = true → rhasKey msg "pid" = true → rhasKey msg "comm" = true →
       ∃ m2, apparmor_main_info msg = .ok m2) := by
  refine ⟨?_, ?_, ?_⟩
  · intro h
    simp [apparmor_pretty, h]
  · intro hsc harch htime
    rcases rlookup_isSome_of_hasKey msg "syscall" hsc with ⟨sc, hsc2⟩
    rcases rlookup_isSome_of_hasKey msg "arch" harch with ⟨ar, har2⟩
    rcases htime with ht | ⟨n, ht⟩
    · simp [seccomp_pretty, ht, hsc2, har2]
    · simp [seccomp_pretty, ht, hsc2, har2, fromtimestampE, Except.map]
  · intro h ht hp hc
    have e1 : rhasKey (rerase msg "time") "pid" = true := by
      rw [rhasKey_rerase_ne msg "time" "pid" (by decide)]
      exact hp
    have e2 : rhasKey (rerase (rerase msg "time") "pid") "comm" = true := by
      rw [rhasKey_rerase_ne _ "pid" "comm" (by decide),
          rhasKey_rerase_ne msg "time" "comm" (by decide)]
      exact hc
    simp [apparmor_main_info, h, delE, ht, e1, e2]

/-- Witness for C6 (amended) at concrete records carrying the required
fields and nothing optional. -/
theorem c6_amended_witness :
    (∃ out, apparmor_pretty [("apparmor", Value.str "DENIED"), ("time", Value.int 1),
        ("pid", Value.int 2), ("comm", Value.str "c")] "" = .ok ([], out))
    ∧ (∃ out, seccomp_pretty [("type", Value.str "SECCOMP"), ("syscall", Value.int 59),
        ("arch", Value.str "c000003e")] "" = .ok ([], out))
    ∧ (∃ m2, apparmor_main_info [("apparmor", Value.str "DENIED"), ("time", Value.int 1),
        ("pid", Value.int 2), ("comm", Value.str "c")] = .ok m2) :=
  ⟨(c6_amended [("apparmor", Value.str "DENIED"), ("time", Value.int 1),
      ("pid", Value.int 2), ("comm", Value.str "c")] "").1 rfl,
   (c6_amended [("type", Value.str "SECCOMP"), ("syscall", Value.int 59),
      ("arch", Value.str "c000003e")] "").2.1 rfl rfl (Or.inl rfl),
   (c6_amended [("apparmor", Value.str "DENIED"), ("time", Value.int 1),
      ("pid", Value.int 2), ("comm", Value.str "c")] "").2.2 rfl rfl rfl rfl⟩

/-! ## C9/C10 — tokenizer structure lemmas -/

theorem spanP_append_eq (p : Char → Bool) :
    ∀ l : List Char, (spanP p l).1 ++ (spanP p l).2 = l
  | [] => rfl
  | c :: cs => by
    unfold spanP
    by_cases h : p c = true
    · simp only [h, if_true]
      simpa using spanP_append_eq p cs
    · simp [h]

theorem spanP_sound (p : Char → Bool) :
    ∀ l : List Char, ∀ c ∈ (spanP p l).1, p c = true
  | [] => by simp [spanP]
  | c :: cs => by
    unfold spanP
    by_cases h : p c = true
    · simp only [h, if_true]
      intro x hx
      rcases List.mem_cons.mp hx with rfl | hx2
      · exact h
      · exact spanP_sound p cs x hx2
    · simp [h]

theorem spanP_append (p : Char → Bool) (x : Char) (l2 : List Char)
    (hx : p x = false) :
    ∀ l1 : List Char, (∀ c ∈ l1, p c = true) →
      spanP p (l1 ++ x :: l2) = (l1, x :: l2)
  | [], _ => by simp [spanP, hx]
  | c :: cs, h1 => by
    have hc : p c = true := h1 c (List.mem_cons_self c cs)
    have ih := spanP_append p x l2 hx cs (fun d hd => h1 d (List.mem_cons_of_mem c hd))
    show spanP p (c :: (cs ++ x :: l2)) = (c :: cs, x :: l2)
    unfold spanP
    simp only [hc, if_true]
    simp [ih]

theorem stripPre_append : ∀ (pre l : List Char), stripPre pre (pre ++ l) = some l
  | [], l => rfl
  | c :: cs, l => by
    simp only [List.cons_append, stripPre, beq_self_eq_true, if_true]
    exact stripPre_append cs l

theorem stripPre_sound : ∀ (pre l rest : List Char),
    stripPre pre l = some rest → l = pre ++ rest
  | [], l, rest, h => by
    cases h
    rfl
  | c :: cs, [], rest, h => by cases h
  | c :: cs, x :: xs, rest, h => by
    rw [stripPre] at h
    by_cases he : (x == c) = true
    · rw [if_pos he] at h
      rw [List.cons_append, show x = c from beq_iff_eq.mp he]
      rw [stripPre_sound cs xs rest h]
    · rw [if_neg he] at h
      cases h

theorem unquotedVal_parts (l v rest : List Char) (h : unquotedVal l = some (v, rest)) :
    v ++ rest = l ∧ v ≠ [] := by
  unfold unquotedVal at h
  by_cases he : (spanP (fun c => !(c == ' ')) l).1.isEmpty
  · rw [if_pos he] at h
    cases h
  · rw [if_neg he] at h
    injection h with h3
    have hv : (spanP (fun c => !(c == ' ')) l).1 = v := by rw [h3]
    have hr : (spanP (fun c => !(c == ' ')) l).2 = rest := by rw [h3]
    refine ⟨?_, ?_⟩
    · rw [← hv, ← hr]
      exact spanP_append_eq _ l
    · intro e
      apply he
      rw [hv, e]
      rfl

theorem unquotedVal_shrink (l v rest : List Char) (h : unquotedVal l = some (v, rest)) :
    rest.length < l.length := by
  rcases unquotedVal_parts l v rest h with ⟨heq, hne⟩
  have : l.length = v.length + rest.length := by
    rw [← heq, List.length_append]
  have hv : 0 < v.length := List.length_pos.mpr hne
  omega

theorem quotedScanAux_shrink : ∀ (acc l c r : List Char),
    quotedScanAux acc l = some (c, r) → r.length < l.length
  | acc, [], c, r, h => by simp [quotedScanAux] at h
  | acc, x :: xs, c, r, h => by
    unfold quotedScanAux at h
    by_cases hq : (x == '"') = true
    · rw [if_pos hq] at h
      by_cases ha : acc.isEmpty
      · rw [if_pos ha] at h
        have := quotedScanAux_shrink ['"'] xs c r h
        simp only [List.length_cons]
        omega
      · rw [if_neg ha] at h
        have hr : xs = r := by
          cases h
          rfl
        simp [hr]
    · rw [if_neg hq] at h
      by_cases hn : (x == '\n') = true
      · rw [if_pos hn] at h
        cases h
      · rw [if_neg hn] at h
        have := quotedScanAux_shrink (x :: acc) xs c r h
        simp only [List.length_cons]
        omega

theorem matchValue_shrink : ∀ (l v rest : List Char),
    matchValue l = some (v, rest) → rest.length < l.length := by
  intro l v rest h
  cases l with
  | nil => simp [matchValue, unquotedVal, spanP] at h
  | cons c cs =>
    simp only [matchValue] at h
    by_cases hq : (c == '"') = true
    · rw [if_pos hq] at h
      cases hqs : quotedScanAux [] cs with
      | none =>
        rw [hqs] at h
        exact unquotedVal_shrink _ _ _ h
      | some pr =>
        rw [hqs] at h
        obtain ⟨cc, rr⟩ := pr
        injection h with h2
        have hlt := quotedScanAux_shrink [] cs cc rr hqs
        have hr : rr = rest := congrArg Prod.snd h2
        rw [hr] at hlt
        simp only [List.length_cons]
        omega
    · rw [if_neg hq] at h
      exact unquotedVal_shrink _ _ _ h

theorem tryKV_shrink (l : List Char) (k v : String) (rest : List Char)
    (h : tryKV l = some (k, v, rest)) : rest.length < l.length := by
  unfold tryKV at h
  split at h
  · cases h
  · rename_i he
    split at h
    · rename_i c r2 h2
      split at h
      · split at h
        · rename_i v0 rest0 hmv
          injection h with hh
          have hr : rest0 = rest := congrArg Prod.snd (congrArg Prod.snd hh)
          have hlen := matchValue_shrink r2 v0 rest0 hmv
          have hsplit : (spanP keyChar l).1 ++ (spanP keyChar l).2 = l :=
            spanP_append_eq keyChar l
          have hkne : (spanP keyChar l).1 ≠ [] := by
            intro e
            rw [e] at he
            exact he rfl
          have hkpos : 0 < (spanP keyChar l).1.length := List.length_pos.mpr hkne
          have hlen2 : (spanP keyChar l).1.length + (spanP keyChar l).2.length
              = l.length := by
            rw [← List.length_append, hsplit]
          have h2len : (spanP keyChar l).2.length = r2.length + 1 := by
            rw [h2]
            rfl
          rw [hr] at hlen
          omega
        · cases h
      · cases h
    · cases h

theorem scanKV_congr : ∀ (f1 : Nat) (l : List Char) (f2 : Nat),
    l.length ≤ f1 → l.length ≤ f2 → scanKV f1 l = scanKV f2 l
  | 0, l, f2, h1, h2 => by
    have he : l = [] := List.eq_nil_of_length_eq_zero (Nat.le_zero.mp h1)
    subst he
    cases f2 <;> rfl
  | f1 + 1, [], f2, _, _ => by cases f2 <;> rfl
  | f1 + 1, c :: cs, f2, h1, h2 => by
    cases f2 with
    | zero => simp at h2
    | succ f2 =>
      cases h : tryKV (c :: cs) with
      | none =>
        simp only [scanKV, h]
        simp only [List.length_cons] at h1 h2
        exact scanKV_congr f1 cs f2 (by omega) (by omega)
      | some kv =>
        obtain ⟨k, v, rest⟩ := kv
        simp only [scanKV, h]
        have hlen := tryKV_shrink _ _ _ _ h
        simp only [List.length_cons] at h1 h2 hlen
        rw [scanKV_congr f1 rest f2 (by omega) (by omega)]

theorem scanPairs_cons_match (c : Char) (cs : List Char) (k v : String)
    (rest : List Char) (h : tryKV (c :: cs) = some (k, v, rest)) :
    scanPairs (c :: cs) = (k, v) :: scanPairs rest := by
  have hlen := tryKV_shrink _ _ _ _ h
  unfold scanPairs
  simp only [List.length_cons, scanKV, h]
  simp only [List.length_cons] at hlen
  rw [scanKV_congr cs.length rest rest.length (by omega) (le_refl _)]

theorem scanPairs_cons_skip (c : Char) (cs : List Char)
    (h : tryKV (c :: cs) = none) : scanPairs (c :: cs) = scanPairs cs := by
  unfold scanPairs
  simp only [List.length_cons, scanKV, h]

theorem tryKV_token (key val rest : List Char)
    (hk1 : key ≠ []) (hk2 : ∀ c ∈ key, keyChar c = true)
    (hv1 : val ≠ []) (hv2 : ∀ c ∈ val, (c == ' ') = false)
    (hvq : ∀ c t, val = c :: t → (c == '"') = false) :
    tryKV (key ++ '=' :: (val ++ ' ' :: rest))
      = some (String.mk key, String.mk val, ' ' :: rest) := by
  have hspan : spanP keyChar (key ++ '=' :: (val ++ ' ' :: rest))
      = (key, '=' :: (val ++ ' ' :: rest)) :=
    spanP_append keyChar '=' _ (by decide) key hk2
  have hmv : matchValue (val ++ ' ' :: rest) = some (val, ' ' :: rest) := by
    cases val with
    | nil => exact absurd rfl hv1
    | cons c t =>
      have hq : (c == '"') = false := hvq c t rfl
      have hsp : spanP (fun c => !(c == ' ')) (c :: (t ++ ' ' :: rest))
          = (c :: t, ' ' :: rest) := by
        have := spanP_append (fun c => !(c == ' ')) ' ' rest (by decide) (c :: t)
          (fun x hx => by
            show (!(x == ' ')) = true
            rw [hv2 x hx]
            rfl)
        simpa using this
      show matchValue (c :: (t ++ ' ' :: rest)) = some (c :: t, ' ' :: rest)
      simp only [matchValue]
      rw [if_neg (by simp [hq])]
      unfold unquotedVal
      rw [hsp]
      rfl
  unfold tryKV
  rw [hspan]
  rw [if_neg (by simpa [List.isEmpty_iff] using hk1)]
  show (if ('=' == '=') = true then
      match matchValue (val ++ ' ' :: rest) with
      | some (v, rest2) => some (String.mk key, String.mk v, rest2)
      | none => none
    else none) = some (String.mk key, String.mk val, ' ' :: rest)
  rw [if_pos (beq_self_eq_true '='), hmv]

theorem tryKV_space (R : List Char) : tryKV (' ' :: R) = none := rfl

theorem scanPairs_normalized (tag secs body : List Char)
    (htag1 : tag ≠ []) (htag2 : ∀ c ∈ tag, tagChar c = true)
    (hsecs1 : secs ≠ []) (hsecs2 : ∀ c ∈ secs, Char.isDigit c = true) :
    scanPairs ("type=".data ++ tag ++ ' ' :: ("time=".data ++ secs ++ ' ' :: body))
      = ("type", String.mk tag) :: ("time", String.mk secs) :: scanPairs (' ' :: body) := by
  have htv : ∀ c ∈ tag, (c == ' ') = false := by
    intro c hc
    have h := htag2 c hc
    by_cases he : c = ' '
    · rw [he] at h
      exact absurd h (by decide)
    · simp [he]
  have htq : ∀ c t, tag = c :: t → (c == '"') = false := by
    intro c t he
    have h := htag2 c (he ▸ List.mem_cons_self c t)
    by_cases hq : c = '"'
    · rw [hq] at h
      exact absurd h (by decide)
    · simp [hq]
  have hsv : ∀ c ∈ secs, (c == ' ') = false := by
    intro c hc
    have h := hsecs2 c hc
    by_cases he : c = ' '
    · rw [he] at h
      exact absurd h (by decide)
    · simp [he]
  have hsq : ∀ c t, secs = c :: t → (c == '"') = false := by
    intro c t he
    have h := hsecs2 c (he ▸ List.mem_cons_self c t)
    by_cases hq : c = '"'
    · rw [hq] at h
      exact absurd h (by decide)
    · simp [hq]
  have hA : tryKV ('t' :: 'y' :: 'p' :: 'e' :: '='
        :: (tag ++ ' ' :: ('t' :: 'i' :: 'm' :: 'e' :: '=' :: (secs ++ ' ' :: body))))
      = some (String.mk "type".data, String.mk tag,
          ' ' :: ('t' :: 'i' :: 'm' :: 'e' :: '=' :: (secs ++ ' ' :: body))) :=
    tryKV_token "type".data tag _ (by decide) (by decide) htag1 htv htq
  have hB : tryKV ('t' :: 'i' :: 'm' :: 'e' :: '=' :: (secs ++ ' ' :: body))
      = some (String.mk "time".data, String.mk secs, ' ' :: body) :=
    tryKV_token "time".data secs body (by decide) (by decide) hsecs1 hsv hsq
  show scanPairs ('t' :: 'y' :: 'p' :: 'e' :: '='
        :: (tag ++ ' ' :: ('t' :: 'i' :: 'm' :: 'e' :: '=' :: (secs ++ ' ' :: body))))
      = ("type", String.mk tag) :: ("time", String.mk secs) :: scanPairs (' ' :: body)
  rw [scanPairs_cons_match _ _ _ _ _ hA,
      scanPairs_cons_skip _ _ (tryKV_space _),
      scanPairs_cons_match _ _ _ _ _ hB]

/-! ### Dictionary building -/

theorem lookupS_none_of_not_any : ∀ (r : List (String × String)) (k : String),
    r.any (fun p => p.1 == k) = false → lookupS r k = none
  | [], _, _ => rfl
  | p :: ps, k, h => by
    simp only [List.any_cons, Bool.or_eq_false_iff] at h
    rw [lookupS, if_neg (by simpa using h.1)]
    exact lookupS_none_of_not_any ps k h.2

theorem lookupS_append_of_none : ∀ (r1 r2 : List (String × String)) (k : String),
    lookupS r1 k = none → lookupS (r1 ++ r2) k = lookupS r2 k
  | [], r2, k, _ => rfl
  | p :: ps, r2, k, h => by
    rw [lookupS] at h
    by_cases hk : p.1 = k
    · rw [if_pos hk] at h
      cases h
    · rw [if_neg hk] at h
      rw [List.cons_append, lookupS, if_neg hk]
      exact lookupS_append_of_none ps r2 k h

theorem lookupS_map_overwrite : ∀ (r : List (String × String)) (k v : String),
    r.any (fun p => p.1 == k) = true →
    lookupS (r.map (fun p => if p.1 == k then (p.1, v) else p)) k = some v
  | [], k, v, h => by simp at h
  | p :: ps, k, v, h => by
    by_cases hk : (p.1 == k) = true
    · simp only [List.map_cons, if_pos hk]
      rw [lookupS, if_pos (beq_iff_eq.mp hk)]
    · simp only [List.map_cons, if_neg hk]
      rw [lookupS, if_neg (by simpa using hk)]
      apply lookupS_map_overwrite ps k v
      simp only [List.any_cons, hk, Bool.false_or] at h
      exact h

theorem lookupS_map_ne : ∀ (r : List (String × String)) (k v k2 : String), k2 ≠ k →
    lookupS (r.map (fun p => if p.1 == k then (p.1, v) else p)) k2 = lookupS r k2
  | [], _, _, _, _ => rfl
  | p :: ps, k, v, k2, h => by
    by_cases hp : (p.1 == k) = true
    · simp only [List.map_cons, if_pos hp]
      by_cases h2 : p.1 = k2
      · exact absurd ((beq_iff_eq.mp hp).symm.trans h2).symm h
      · rw [lookupS, if_neg h2, lookupS, if_neg h2]
        exact lookupS_map_ne ps k v k2 h
    · simp only [List.map_cons, if_neg hp]
      by_cases h2 : p.1 = k2
      · rw [lookupS, if_pos h2, lookupS, if_pos h2]
      · rw [lookupS, if_neg h2, lookupS, if_neg h2]
        exact lookupS_map_ne ps k v k2 h

theorem lookupS_insert_self (r : List (String × String)) (k v : String) :
    lookupS (insertPy r k v) k = some v := by
  unfold insertPy
  by_cases h : r.any (fun p => p.1 == k) = true
  · rw [if_pos h]
    exact lookupS_map_overwrite r k v h
  · rw [if_neg h]
    have hf : r.any (fun p => p.1 == k) = false := by
      revert h
      cases r.any (fun p => p.1 == k) <;> simp
    rw [lookupS_append_of_none r [(k, v)] k (lookupS_none_of_not_any r k hf)]
    rw [lookupS, if_pos rfl]

theorem lookupS_append_single_ne : ∀ (r : List (String × String)) (k v k2 : String),
    k2 ≠ k → lookupS (r ++ [(k, v)]) k2 = lookupS r k2
  | [], k, v, k2, h => by
    simp [lookupS, Ne.symm h]
  | p :: ps, k, v, k2, h => by
    rw [List.cons_append, lookupS, lookupS]
    by_cases h2 : p.1 = k2
    · rw [if_pos h2, if_pos h2]
    · rw [if_neg h2, if_neg h2]
      exact lookupS_append_single_ne ps k v k2 h

theorem lookupS_insert_ne (r : List (String × String)) (k v k2 : String)
    (h : k2 ≠ k) : lookupS (insertPy r k v) k2 = lookupS r k2 := by
  unfold insertPy
  by_cases ha : r.any (fun p => p.1 == k) = true
  · rw [if_pos ha]
    exact lookupS_map_ne r k v k2 h
  · rw [if_neg ha]
    exact lookupS_append_single_ne r k v k2 h

theorem lookupS_foldl_ne : ∀ (ps : List (String × String))
    (r : List (String × String)) (k : String), (∀ p ∈ ps, p.1 ≠ k) →
    lookupS (ps.foldl (fun r p => insertPy r p.1 p.2) r) k = lookupS r k
  | [], r, k, _ => rfl
  | p :: ps, r, k, h => by
    rw [List.foldl_cons]
    rw [lookupS_foldl_ne ps _ k (fun q hq => h q (List.mem_cons_of_mem p hq))]
    exact lookupS_insert_ne r p.1 p.2 k (fun e => h p (List.mem_cons_self p ps) e.symm)

theorem lookupS_foldl_isSome : ∀ (ps : List (String × String))
    (r : List (String × String)) (k : String), (lookupS r k).isSome = true →
    (lookupS (ps.foldl (fun r p => insertPy r p.1 p.2) r) k).isSome = true
  | [], r, k, h => h
  | p :: ps, r, k, h => by
    rw [List.foldl_cons]
    apply lookupS_foldl_isSome ps _ k
    by_cases he : p.1 = k
    · rw [← he, lookupS_insert_self]
      rfl
    · rw [lookupS_insert_ne r p.1 p.2 k (fun e => he e.symm)]
      exact h

theorem rlookup_postAll (d : List (String × String)) (k : String) :
    rlookup (postAll d) k = (lookupS d k).map postprocessValue := by
  induction d with
  | nil => rfl
  | cons p ps ih =>
    show rlookup ((p.1, postprocessValue p.2) :: postAll ps) k = _
    rw [rlookup, lookupS]
    by_cases hk : p.1 = k
    · rw [if_pos hk, if_pos hk]
      rfl
    · rw [if_neg hk, if_neg hk]
      exact ih

/-! ### Numeric coercion of the synthesized fields -/

theorem postprocess_digits (l : List Char) (h1 : l ≠ [])
    (h2 : ∀ c ∈ l, Char.isDigit c = true) :
    postprocessValue (String.mk l) = Value.int (decNat l) := by
  have hd : pyIsDigit (String.mk l) = true := by
    unfold pyIsDigit
    show (!l.isEmpty && l.all Char.isDigit) = true
    rw [List.all_eq_true.mpr h2]
    cases l with
    | nil => exact absurd rfl h1
    | cons c cs => rfl
  simp [postprocessValue, hd, digit_not_0x _ hd]

theorem postprocess_tag (tag : List Char) (h1 : tag ≠ [])
    (h2 : ∀ c ∈ tag, tagChar c = true) :
    postprocessValue (String.mk tag)
      = if tag.all Char.isDigit = true then Value.int (decNat tag)
        else Value.str (String.mk tag) := by
  by_cases hd : tag.all Char.isDigit = true
  · rw [if_pos hd]
    exact postprocess_digits tag h1 (fun c hc => List.all_eq_true.mp hd c hc)
  · rw [if_neg hd]
    have hall : tag.all Char.isDigit = false := by
      revert hd
      cases tag.all Char.isDigit <;> simp
    have hpd : pyIsDigit (String.mk tag) = false := by
      unfold pyIsDigit
      simp [hall]
    have h0x : starts0x (String.mk tag) = false := by
      unfold starts0x
      cases tag with
      | nil => rfl
      | cons c1 rest =>
        cases rest with
        | nil => rfl
        | cons c2 t =>
          have hc2 : tagChar c2 = true := h2 c2 (by simp)
          have hne : c2 ≠ 'x' := by
            intro e
            rw [e] at hc2
            exact absurd hc2 (by decide)
          simp [hne]
    simp [postprocessValue, hpd, h0x]

/-! ### Evaluating the pipeline on a well-formed line -/

theorem dropWhile_eq_self_of_head (p : Char → Bool) (l : List Char)
    (h : ∀ c, l.head? = some c → p c = false) : l.dropWhile p = l := by
  cases l with
  | nil => rfl
  | cons c cs =>
    rw [List.dropWhile_cons, if_neg (by simp [h c rfl])]

theorem pyStrip_eq_self (l : List Char)
    (hh : ∀ c, l.head? = some c → Char.isWhitespace c = false)
    (hl : ∀ c, l.getLast? = some c → Char.isWhitespace c = false) :
    pyStrip l = l := by
  unfold pyStrip
  rw [dropWhile_eq_self_of_head _ l hh]
  rw [dropWhile_eq_self_of_head _ l.reverse
        (fun c hc => hl c (by rwa [List.head?_reverse] at hc))]
  exact List.reverse_reverse l

theorem hasPrefixL_self_append : ∀ (pat l : List Char), hasPrefixL pat (pat ++ l) = true
  | [], _ => rfl
  | c :: cs, l => by
    show (c == c && hasPrefixL cs (cs ++ l)) = true
    rw [beq_self_eq_true, hasPrefixL_self_append cs l]
    rfl

theorem hasInfixL_cons_of (pat : List Char) (c : Char) (cs : List Char)
    (h : hasInfixL pat cs = true) : hasInfixL pat (c :: cs) = true := by
  show (hasPrefixL pat (c :: cs) || hasInfixL pat cs) = true
  rw [h]
  exact Bool.or_true _

theorem hasInfixL_of_parts : ∀ (l1 pat l2 : List Char),
    hasInfixL pat (l1 ++ (pat ++ l2)) = true
  | [], pat, l2 => by
    show hasInfixL pat (pat ++ l2) = true
    cases pat with
    | nil =>
      cases l2 with
      | nil => rfl
      | cons c cs =>
        show (hasPrefixL [] (c :: cs) || hasInfixL [] cs) = true
        rfl
    | cons c cs =>
      show (hasPrefixL (c :: cs) (c :: (cs ++ l2)) || hasInfixL (c :: cs) (cs ++ l2)) = true
      have h1 : hasPrefixL (c :: cs) (c :: (cs ++ l2)) = true :=
        hasPrefixL_self_append (c :: cs) l2
      rw [h1]
      rfl
  | c :: cs, pat, l2 => hasInfixL_cons_of pat c _ (hasInfixL_of_parts cs pat l2)

theorem stripPre_cons (c : Char) (X : List Char) : stripPre [c] (c :: X) = some X := by
  show (if (c == c) = true then stripPre [] X else none) = some X
  rw [if_pos (beq_self_eq_true c)]
  rfl

theorem isEmpty_false_of_ne_nil (l : List Char) (h : l ≠ []) : l.isEmpty = false := by
  cases l with
  | nil => exact absurd rfl h
  | cons c cs => rfl

theorem shapeRest_eval (secs sub seq body : List Char)
    (hsecs1 : secs ≠ []) (hsecs2 : ∀ c ∈ secs, Char.isDigit c = true)
    (hsub1 : sub ≠ []) (hsub2 : ∀ c ∈ sub, Char.isDigit c = true)
    (hseq1 : seq ≠ []) (hseq2 : ∀ c ∈ seq, Char.isDigit c = true)
    (hbody1 : body ≠ []) (hbody2 : body.any (fun c => c == '\n') = false) :
    shapeRest ("audit(".data
        ++ (secs ++ '.' :: (sub ++ ':' :: (seq ++ ("): ".data ++ body)))))
      = some (secs, body) := by
  have e1 : stripPre "audit(".data ("audit(".data
        ++ (secs ++ '.' :: (sub ++ ':' :: (seq ++ ("): ".data ++ body)))))
      = some (secs ++ '.' :: (sub ++ ':' :: (seq ++ ("): ".data ++ body)))) :=
    stripPre_append _ _
  have e2 : spanP Char.isDigit (secs ++ '.' :: (sub ++ ':' :: (seq ++ ("): ".data ++ body))))
      = (secs, '.' :: (sub ++ ':' :: (seq ++ ("): ".data ++ body)))) :=
    spanP_append _ _ _ (by decide) secs hsecs2
  have e3 : spanP Char.isDigit (sub ++ ':' :: (seq ++ ("): ".data ++ body)))
      = (sub, ':' :: (seq ++ ("): ".data ++ body))) :=
    spanP_append _ _ _ (by decide) sub hsub2
  have e4 : spanP Char.isDigit (seq ++ ("): ".data ++ body))
      = (seq, ')' :: (':' :: (' ' :: body))) := by
    have := spanP_append Char.isDigit ')' (':' :: (' ' :: body)) (by decide) seq hseq2
    exact this
  have e5 : stripPre "): ".data (')' :: (':' :: (' ' :: body))) = some body :=
    stripPre_append "): ".data body
  simp only [shapeRest, e1, e2, e3, e4, e5, stripPre_cons,
    isEmpty_false_of_ne_nil secs hsecs1, isEmpty_false_of_ne_nil sub hsub1,
    isEmpty_false_of_ne_nil seq hseq1, isEmpty_false_of_ne_nil body hbody1,
    hbody2, Bool.false_eq_true, if_false]

theorem matchShape_mkLine (tag secs sub seq body : List Char)
    (htag1 : tag ≠ []) (htag2 : ∀ c ∈ tag, tagChar c = true)
    (hsecs1 : secs ≠ []) (hsecs2 : ∀ c ∈ secs, Char.isDigit c = true)
    (hsub1 : sub ≠ []) (hsub2 : ∀ c ∈ sub, Char.isDigit c = true)
    (hseq1 : seq ≠ []) (hseq2 : ∀ c ∈ seq, Char.isDigit c = true)
    (hbody1 : body ≠ []) (hbody2 : body.any (fun c => c == '\n') = false) :
    matchShape ("type=".data ++ (tag ++ ' ' :: ("msg=audit(".data ++ (secs ++
        '.' :: (sub ++ ':' :: (seq ++ ("): ".data ++ body)))))))
      = some (tag, secs, body) := by
  have eA : stripPre "type=".data ("type=".data ++ (tag ++ ' ' :: ("msg=audit(".data
        ++ (secs ++ '.' :: (sub ++ ':' :: (seq ++ ("): ".data ++ body)))))))
      = some (tag ++ ' ' :: ("msg=audit(".data
        ++ (secs ++ '.' :: (sub ++ ':' :: (seq ++ ("): ".data ++ body)))))) :=
    stripPre_append _ _
  have eB : spanP tagChar (tag ++ ' ' :: ("msg=audit(".data
        ++ (secs ++ '.' :: (sub ++ ':' :: (seq ++ ("): ".data ++ body))))))
      = (tag, ' ' :: ("msg=audit(".data
        ++ (secs ++ '.' :: (sub ++ ':' :: (seq ++ ("): ".data ++ body)))))) :=
    spanP_append _ _ _ (by decide) tag htag2
  have eD : stripPre "msg=".data ("msg=audit(".data
        ++ (secs ++ '.' :: (sub ++ ':' :: (seq ++ ("): ".data ++ body)))))
      = some ("audit(".data
        ++ (secs ++ '.' :: (sub ++ ':' :: (seq ++ ("): ".data ++ body))))) := rfl
  have eE := shapeRest_eval secs sub seq body hsecs1 hsecs2 hsub1 hsub2
    hseq1 hseq2 hbody1 hbody2
  simp only [matchShape, eA, eB, eD, eE, stripPre_cons,
    isEmpty_false_of_ne_nil tag htag1, Bool.false_eq_true, if_false]

theorem shapeRest_sound (l secs body : List Char)
    (h : shapeRest l = some (secs, body)) :
    secs ≠ [] ∧ (∀ c ∈ secs, Char.isDigit c = true) := by
  unfold shapeRest at h
  split at h
  · cases h
  · rename_i l4 h4
    split at h
    · cases h
    · rename_i hse
      split at h
      · cases h
      · rename_i l5 h5
        split at h
        · cases h
        · rename_i hsu
          split at h
          · cases h
          · rename_i l6 h6
            split at h
            · cases h
            · rename_i hsq
              split at h
              · cases h
              · rename_i body0 hb
                split at h
                · cases h
                · split at h
                  · cases h
                  · injection h with hh
                    have hsecs : (spanP Char.isDigit l4).1 = secs :=
                      congrArg Prod.fst hh
                    constructor
                    · intro e
                      rw [hsecs, e] at hse
                      exact hse rfl
                    · intro c hc
                      exact spanP_sound Char.isDigit l4 c (hsecs ▸ hc)

theorem matchShape_sound (l tag secs body : List Char)
    (h : matchShape l = some (tag, secs, body)) :
    tag ≠ [] ∧ (∀ c ∈ tag, tagChar c = true)
    ∧ secs ≠ [] ∧ (∀ c ∈ secs, Char.isDigit c = true) := by
  unfold matchShape at h
  split at h
  · cases h
  · rename_i l1 h1
    split at h
    · cases h
    · rename_i htagE
      split at h
      · cases h
      · rename_i l2 h2
        split at h
        · cases h
        · rename_i sb hsb
          injection h with hh
          have htag : (spanP tagChar l1).1 = tag := congrArg Prod.fst hh
          have hpair : (sb.1, sb.2) = (secs, body) := congrArg Prod.snd hh
          have hsb1 : sb.1 = secs := congrArg Prod.fst hpair
          have hsb2 : sb.2 = body := congrArg Prod.snd hpair
          have hsbfull : sb = (secs, body) := by
            rw [← hsb1, ← hsb2]
          have hrest : secs ≠ [] ∧ ∀ c ∈ secs, Char.isDigit c = true := by
            rw [hsbfull] at hsb
            split at hsb
            · exact shapeRest_sound _ _ _ hsb
            · exact shapeRest_sound _ _ _ hsb
          refine ⟨?_, ?_, hrest.1, hrest.2⟩
          · intro e
            rw [htag, e] at htagE
            exact htagE rfl
          · intro c hc
            exact spanP_sound tagChar l1 c (htag ▸ hc)

theorem hasInfixL_append_left : ∀ (l1 pat l : List Char),
    hasInfixL pat l = true → hasInfixL pat (l1 ++ l) = true
  | [], _, _, h => h
  | c :: cs, pat, l, h => hasInfixL_cons_of pat c _ (hasInfixL_append_left cs pat l h)

theorem append_ne_nil_right (l1 l2 : List Char) (h : l2 ≠ []) : l1 ++ l2 ≠ [] := by
  cases l1 with
  | nil => simpa using h
  | cons c cs => simp

theorem getLast?_append_right (l1 l2 : List Char) (h : l2 ≠ []) :
    (l1 ++ l2).getLast? = l2.getLast? := by
  rw [← List.head?_reverse, ← List.head?_reverse, List.reverse_append]
  cases hr : l2.reverse with
  | nil =>
    rw [List.reverse_eq_nil_iff] at hr
    exact absurd hr h
  | cons c cs => rfl

theorem getLast?_cons_of_ne_nil (c : Char) (l : List Char) (h : l ≠ []) :
    (c :: l).getLast? = l.getLast? := by
  rw [show c :: l = [c] ++ l from rfl]
  exact getLast?_append_right [c] l h

theorem mkLine_getLast (tag secs sub seq body : List Char) (h : body ≠ []) :
    ("type=".data ++ (tag ++ ' ' :: ("msg=audit(".data ++ (secs ++
        '.' :: (sub ++ ':' :: (seq ++ ("): ".data ++ body))))))).getLast?
      = body.getLast? := by
  have n1 : "): ".data ++ body ≠ [] := append_ne_nil_right _ _ h
  have n2 : seq ++ ("): ".data ++ body) ≠ [] := append_ne_nil_right _ _ n1
  have n3 : (':' :: (seq ++ ("): ".data ++ body))) ≠ (List.nil : List Char) :=
    List.cons_ne_nil _ _
  have n4 : sub ++ ':' :: (seq ++ ("): ".data ++ body)) ≠ [] :=
    append_ne_nil_right _ _ n3
  have n5 : ('.' :: (sub ++ ':' :: (seq ++ ("): ".data ++ body))))
      ≠ (List.nil : List Char) := List.cons_ne_nil _ _
  have n6 : secs ++ '.' :: (sub ++ ':' :: (seq ++ ("): ".data ++ body))) ≠ [] :=
    append_ne_nil_right _ _ n5
  have n7 : "msg=audit(".data
      ++ (secs ++ '.' :: (sub ++ ':' :: (seq ++ ("): ".data ++ body)))) ≠ [] :=
    append_ne_nil_right _ _ n6
  have n8 : (' ' :: ("msg=audit(".data ++ (secs ++ '.' :: (sub ++ ':'
      :: (seq ++ ("): ".data ++ body)))))) ≠ (List.nil : List Char) :=
    List.cons_ne_nil _ _
  have n9 : tag ++ ' ' :: ("msg=audit(".data ++ (secs ++ '.' :: (sub ++ ':'
      :: (seq ++ ("): ".data ++ body))))) ≠ [] := append_ne_nil_right _ _ n8
  rw [getLast?_append_right _ _ n9,
      getLast?_append_right tag _ n8,
      getLast?_cons_of_ne_nil ' ' _ n7,
      getLast?_append_right _ _ n6,
      getLast?_append_right secs _ n5,
      getLast?_cons_of_ne_nil '.' _ n4,
      getLast?_append_right sub _ n3,
      getLast?_cons_of_ne_nil ':' _ n2,
      getLast?_append_right seq _ n1,
      getLast?_append_right _ _ h]

theorem parse_message_mkLine (tag secs sub seq body : List Char)
    (htag1 : tag ≠ []) (htag2 : ∀ c ∈ tag, tagChar c = true)
    (hsecs1 : secs ≠ []) (hsecs2 : ∀ c ∈ secs, Char.isDigit c = true)
    (hsub1 : sub ≠ []) (hsub2 : ∀ c ∈ sub, Char.isDigit c = true)
    (hseq1 : seq ≠ []) (hseq2 : ∀ c ∈ seq, Char.isDigit c = true)
    (hbody1 : body ≠ []) (hbody2 : body.any (fun c => c == '\n') = false)
    (hbody3 : body.getLast?.all (fun c => !(Char.isWhitespace c)) = true) :
    parse_message (mkLine tag secs sub seq body)
      = some (postAll (buildDict (("type", String.mk tag)
          :: ("time", String.mk secs) :: scanPairs (' ' :: body)))) := by
  have hbody3b : ∀ c, body.getLast? = some c → Char.isWhitespace c = false := by
    intro c hc
    rw [hc] at hbody3
    simpa using hbody3
  have hstrip : pyStrip ("type=".data ++ (tag ++ ' ' :: ("msg=audit(".data ++ (secs ++
        '.' :: (sub ++ ':' :: (seq ++ ("): ".data ++ body)))))))
      = "type=".data ++ (tag ++ ' ' :: ("msg=audit(".data ++ (secs ++
        '.' :: (sub ++ ':' :: (seq ++ ("): ".data ++ body)))))) := by
    apply pyStrip_eq_self
    · intro c hc
      have h2 : some 't' = some c := hc
      injection h2 with h3
      rw [← h3]
      decide
    · intro c hc
      rw [mkLine_getLast tag secs sub seq body hbody1] at hc
      exact hbody3b c hc
  have hne : ("type=".data ++ (tag ++ ' ' :: ("msg=audit(".data ++ (secs ++
        '.' :: (sub ++ ':' :: (seq ++ ("): ".data ++ body))))))).isEmpty = false := rfl
  have hinf : hasInfixL "audit".data ("type=".data ++ (tag ++ ' ' :: ("msg=audit(".data
        ++ (secs ++ '.' :: (sub ++ ':' :: (seq ++ ("): ".data ++ body))))))) = true := by
    apply hasInfixL_append_left "type=".data
    apply hasInfixL_append_left tag
    exact hasInfixL_cons_of _ ' ' _ rfl
  have hdm : afterDmesg ("type=".data ++ (tag ++ ' ' :: ("msg=audit(".data ++ (secs ++
        '.' :: (sub ++ ':' :: (seq ++ ("): ".data ++ body)))))))
      = "type=".data ++ (tag ++ ' ' :: ("msg=audit(".data ++ (secs ++
        '.' :: (sub ++ ':' :: (seq ++ ("): ".data ++ body)))))) := rfl
  have hms := matchShape_mkLine tag secs sub seq body htag1 htag2 hsecs1 hsecs2
    hsub1 hsub2 hseq1 hseq2 hbody1 hbody2
  have hsp := scanPairs_normalized tag secs body htag1 htag2 hsecs1 hsecs2
  show parse_message (String.mk ("type=".data ++ (tag ++ ' ' :: ("msg=audit(".data
      ++ (secs ++ '.' :: (sub ++ ':' :: (seq ++ ("): ".data ++ body)))))))) = _
  simp only [parse_message, String.data, hstrip, hne, hinf, hdm, hms, hsp,
    Bool.not_true, Bool.false_eq_true, if_false]

/-- C9 (amended): every record the tokenizer produces contains the reserved
key `type`, and for a well-formed line whose body contributes no overriding
`type=` pair, the value of `type` is the matched tag after the numeric
post-processing every field value undergoes: the integer value of the tag
when the tag consists only of digits, and the string tag otherwise. -/
theorem c9_amended :
    (∀ (line : String) (r : Record), parse_message line = some r →
       ∃ v, rlookup r "type" = some v)
    ∧ ∀ tag secs sub seq body : List Char,
        tag ≠ [] → (∀ c ∈ tag, tagChar c = true) →
        secs ≠ [] → (∀ c ∈ secs, Char.isDigit c = true) →
        sub ≠ [] → (∀ c ∈ sub, Char.isDigit c = true) →
        seq ≠ [] → (∀ c ∈ seq, Char.isDigit c = true) →
        body ≠ [] → body.any (fun c => c == '\n') = false →
        body.getLast?.all (fun c => !(Char.isWhitespace c)) = true →
        (∀ p ∈ scanPairs (' ' :: body), p.1 ≠ "type") →
        ∃ r, parse_message (mkLine tag secs sub seq body) = some r
          ∧ rlookup r "type"
              = some (if tag.all Char.isDigit = true then Value.int (decNat tag)
                      else Value.str (String.mk tag)) := by
  constructor
  · intro line r h
    unfold parse_message at h
    split at h
    · cases h
    · split at h
      · cases h
      · split at h
        · cases h
        · rename_i tag secs body hms
          injection h with h2
          rcases matchShape_sound _ _ _ _ hms with ⟨ht1, ht2, hs1, hs2⟩
          rw [← h2, rlookup_postAll, scanPairs_normalized tag secs body ht1 ht2 hs1 hs2]
          rw [show buildDict (("type", String.mk tag) :: ("time", String.mk secs)
                :: scanPairs (' ' :: body))
              = (scanPairs (' ' :: body)).foldl (fun r p => insertPy r p.1 p.2)
                  (insertPy (insertPy [] "type" (String.mk tag)) "time" (String.mk secs))
              from rfl]
          have hsome := lookupS_foldl_isSome (scanPairs (' ' :: body))
            (insertPy (insertPy [] "type" (String.mk tag)) "time" (String.mk secs))
            "type" (by rfl)
          obtain ⟨v0, hv0⟩ := Option.isSome_iff_exists.mp hsome
          rw [hv0]
          exact ⟨postprocessValue v0, rfl⟩
  · intro tag secs sub seq body h1 h2 h3 h4 h5 h6 h7 h8 h9 h10 h11 h12
    have hp := parse_message_mkLine tag secs sub seq body h1 h2 h3 h4 h5 h6 h7 h8
      h9 h10 h11
    refine ⟨_, hp, ?_⟩
    rw [rlookup_postAll]
    rw [show buildDict (("type", String.mk tag) :: ("time", String.mk secs)
          :: scanPairs (' ' :: body))
        = (scanPairs (' ' :: body)).foldl (fun r p => insertPy r p.1 p.2)
            (insertPy (insertPy [] "type" (String.mk tag)) "time" (String.mk secs))
        from rfl]
    rw [lookupS_foldl_ne _ _ _ h12]
    rw [show lookupS (insertPy (insertPy [] "type" (String.mk tag)) "time"
          (String.mk secs)) "type" = some (String.mk tag) from rfl]
    rw [show (some (String.mk tag)).map postprocessValue
        = some (postprocessValue (String.mk tag)) from rfl]
    rw [postprocess_tag tag h1 h2]

/-- Witness for C9 (amended) at the line `type=AVC msg=audit(1.0:1): a=b`. -/
theorem c9_amended_witness :
    ∃ r, parse_message (mkLine "AVC".data "1".data "0".data "1".data "a=b".data)
        = some r
      ∧ rlookup r "type" = some (Value.str "AVC") := by
  obtain ⟨r, hr1, hr2⟩ := c9_amended.2 "AVC".data "1".data "0".data "1".data "a=b".data
    (by decide) (by decide) (by decide) (by decide) (by decide) (by decide)
    (by decide) (by decide) (by decide) (by decide) (by decide) (by decide)
  refine ⟨r, hr1, ?_⟩
  rw [hr2]
  rfl

/-- C10 (amended): every record `parse_message` produces contains both keys
`type` and `time`; for a well-formed line whose body contributes no
overriding `time=` pair, the value of `time` is the integer seconds of the
matched line, and `should_process` never fails on the record (it returns a
boolean for every configuration). -/
theorem c10_amended :
    (∀ (line : String) (r : Record), parse_message line = some r →
       (∃ v, rlookup r "type" = some v) ∧ (∃ v, rlookup r "time" = some v))
    ∧ ∀ tag secs sub seq body : List Char,
        tag ≠ [] → (∀ c ∈ tag, tagChar c = true) →
        secs ≠ [] → (∀ c ∈ secs, Char.isDigit c = true) →
        sub ≠ [] → (∀ c ∈ sub, Char.isDigit c = true) →
        seq ≠ [] → (∀ c ∈ seq, Char.isDigit c = true) →
        body ≠ [] → body.any (fun c => c == '\n') = false →
        body.getLast?.all (fun c => !(Char.isWhitespace c)) = true →
        (∀ p ∈ scanPairs (' ' :: body), p.1 ≠ "time") →
        ∃ r, parse_message (mkLine tag secs sub seq body) = some r
          ∧ rlookup r "time" = some (Value.int (decNat secs))
          ∧ ∀ args : Args, ∃ b, should_process args (some r) = some b := by
  constructor
  · intro line r h
    unfold parse_message at h
    split at h
    · cases h
    · split at h
      · cases h
      · split at h
        · cases h
        · rename_i tag secs body hms
          injection h with h2
          rcases matchShape_sound _ _ _ _ hms with ⟨ht1, ht2, hs1, hs2⟩
          rw [← h2, rlookup_postAll, rlookup_postAll,
            scanPairs_normalized tag secs body ht1 ht2 hs1 hs2]
          rw [show buildDict (("type", String.mk tag) :: ("time", String.mk secs)
                :: scanPairs (' ' :: body))
              = (scanPairs (' ' :: body)).foldl (fun r p => insertPy r p.1 p.2)
                  (insertPy (insertPy [] "type" (String.mk tag)) "time" (String.mk secs))
              from rfl]
          constructor
          · have hsome := lookupS_foldl_isSome (scanPairs (' ' :: body))
              (insertPy (insertPy [] "type" (String.mk tag)) "time" (String.mk secs))
              "type" (by rfl)
            obtain ⟨v0, hv0⟩ := Option.isSome_iff_exists.mp hsome
            rw [hv0]
            exact ⟨postprocessValue v0, rfl⟩
          · have hsome := lookupS_foldl_isSome (scanPairs (' ' :: body))
              (insertPy (insertPy [] "type" (String.mk tag)) "time" (String.mk secs))
              "time" (by rfl)
            obtain ⟨v0, hv0⟩ := Option.isSome_iff_exists.mp hsome
            rw [hv0]
            exact ⟨postprocessValue v0, rfl⟩
  · intro tag secs sub seq body h1 h2 h3 h4 h5 h6 h7 h8 h9 h10 h11 h12
    have hp := parse_message_mkLine tag secs sub seq body h1 h2 h3 h4 h5 h6 h7 h8
      h9 h10 h11
    have htime : rlookup (postAll (buildDict (("type", String.mk tag)
          :: ("time", String.mk secs) :: scanPairs (' ' :: body)))) "time"
        = some (Value.int (decNat secs)) := by
      rw [rlookup_postAll]
      rw [show buildDict (("type", String.mk tag) :: ("time", String.mk secs)
            :: scanPairs (' ' :: body))
          = (scanPairs (' ' :: body)).foldl (fun r p => insertPy r p.1 p.2)
              (insertPy (insertPy [] "type" (String.mk tag)) "time" (String.mk secs))
          from rfl]
      rw [lookupS_foldl_ne _ _ _ h12]
      rw [show lookupS (insertPy (insertPy [] "type" (String.mk tag)) "time"
            (String.mk secs)) "time" = some (String.mk secs) from rfl]
      rw [show (some (String.mk secs)).map postprocessValue
          = some (postprocessValue (String.mk secs)) from rfl]
      rw [postprocess_digits secs h3 h4]
    have htypeSome : ∃ v, rlookup (postAll (buildDict (("type", String.mk tag)
          :: ("time", String.mk secs) :: scanPairs (' ' :: body)))) "type"
        = some v := by
      rw [rlookup_postAll]
      rw [show buildDict (("type", String.mk tag) :: ("time", String.mk secs)
            :: scanPairs (' ' :: body))
          = (scanPairs (' ' :: body)).foldl (fun r p => insertPy r p.1 p.2)
              (insertPy (insertPy [] "type" (String.mk tag)) "time" (String.mk secs))
          from rfl]
      have hsome := lookupS_foldl_isSome (scanPairs (' ' :: body))
        (insertPy (insertPy [] "type" (String.mk tag)) "time" (String.mk secs))
        "type" (by rfl)
      obtain ⟨v0, hv0⟩ := Option.isSome_iff_exists.mp hsome
      rw [hv0]
      exact ⟨postprocessValue v0, rfl⟩
    obtain ⟨tv, htv⟩ := htypeSome
    refine ⟨_, hp, htime, ?_⟩
    intro args
    by_cases hw : ((decNat secs : Int) < args.since ∨ (decNat secs : Int) > args.untl)
    · exact ⟨false, by simp [should_process, htime, hw]⟩
    · by_cases hc1 : ((!args.exclude.isEmpty && tyMem tv args.exclude)
          || (!args.only.isEmpty && !tyMem tv args.only)) = true
      · exact ⟨false, by simp [should_process, htime, hw, htv, hc1]⟩
      · by_cases hc2 : (!(registeredTag tv) && args.hide_unknown) = true
        · exact ⟨false, by simp [should_process, htime, hw, htv, hc1, hc2]⟩
        · exact ⟨true, by simp [should_process, htime, hw, htv, hc1, hc2]⟩

/-- Witness for C10 (amended) at the line `type=AVC msg=audit(7.0:1): a=b`,
checked against the default configuration. -/
theorem c10_amended_witness :
    ∃ r, parse_message (mkLine "AVC".data "7".data "0".data "1".data "a=b".data)
        = some r
      ∧ rlookup r "time" = some (Value.int 7)
      ∧ ∃ b, should_process ⟨0, 18446744073709551615, [], [], false, false, false⟩
          (some r) = some b := by
  obtain ⟨r, hr1, hr2, hr3⟩ := c10_amended.2 "AVC".data "7".data "0".data "1".data
    "a=b".data
    (by decide) (by decide) (by decide) (by decide) (by decide) (by decide)
    (by decide) (by decide) (by decide) (by decide) (by decide) (by decide)
  exact ⟨r, hr1, hr2, hr3 ⟨0, 18446744073709551615, [], [], false, false, false⟩⟩

end AuditPretty
